import Mathlib

/-!
Verification development for the YOLOX page-elements post-processing core
(`nv_ingest/util/nim/yolox.py`): detector-output normalization, the custom
weighted-boxes-fusion (WBF) engine, table/chart layout heuristics, and the
final confidence threshold filter.

All coordinates and confidences are modelled as exact rationals (ℚ); numpy
float arithmetic is modelled by the corresponding exact rational operations,
and Python `round(x, 4)` by round-half-to-even on `x * 10000`.  Python
exceptions (`IndexError`, `ValueError`, `exit()`) are modelled by `Option` /
`Except` results.  Python's `list(set(...))` over small non-negative ints is
modelled as the deduplicated ascending list.
-/

/-- Python `int(q)` on a float value: truncation toward zero. -/
def intTrunc (q : ℚ) : ℤ := q.num / (q.den : ℤ)

/-- Round half to even (Python `round` semantics) to an integer. -/
def roundHalfEven (q : ℚ) : ℤ :=
  let f := ⌊q⌋
  let r := q - (f : ℚ)
  if r < 1/2 then f
  else if r > 1/2 then f + 1
  else if f % 2 = 0 then f else f + 1

/-- Python `round(x, 4)`. -/
def round4 (q : ℚ) : ℚ := (roundHalfEven (q * 10000) : ℚ) / 10000

/-- `np.clip(x, 0, 1)` on one coordinate (also what the sequential
`if x < 0 ... if x > 1 ...` repairs in `prefilter_boxes` compute). -/
def clamp01 (q : ℚ) : ℚ := if q < 0 then 0 else if q > 1 then 1 else q

/-- `np.max` over a nonempty list (0 on the empty list, which the code
never feeds to it on the paths modelled here). -/
def qmax : List ℚ → ℚ
  | [] => 0
  | x :: xs => xs.foldl max x

/-- `np.min` over a nonempty list. -/
def qmin : List ℚ → ℚ
  | [] => 0
  | x :: xs => xs.foldl min x

/-- `np.mean`. -/
def qmean (l : List ℚ) : ℚ := l.foldl (· + ·) 0 / (l.length : ℚ)

/-- `np.argmax`: index of the first occurrence of the maximum. -/
def argmaxIdx (l : List ℚ) : ℕ := l.findIdx (fun v => v = qmax l)

/-- `np.argmin`: index of the first occurrence of the minimum. -/
def argminIdx (l : List ℚ) : ℕ := l.findIdx (fun v => v = qmin l)

/-- A bounding box `(x1, y1, x2, y2)`. -/
structure Box4 where
  x1 : ℚ
  y1 : ℚ
  x2 : ℚ
  y2 : ℚ
deriving DecidableEq, Repr, Inhabited

/-- One detection entry `[x1, y1, x2, y2, confidence]` of an annotation
dictionary. -/
structure Det where
  x1 : ℚ
  y1 : ℚ
  x2 : ℚ
  y2 : ℚ
  s : ℚ
deriving DecidableEq, Repr, Inhabited

/-- Per-image annotation dictionary `{"table": ..., "chart": ..., "title": ...}`. -/
structure AnnotDict where
  table : List Det
  chart : List Det
  title : List Det
deriving DecidableEq, Repr, Inhabited

def detBox (d : Det) : Box4 := ⟨d.x1, d.y1, d.x2, d.y2⟩

/-- The 8-wide WBF record `[label, score, weight, model index, x1, y1, x2, y2]`. -/
structure Rec where
  lab : ℚ
  score : ℚ
  w : ℚ
  t : ℚ
  x1 : ℚ
  y1 : ℚ
  x2 : ℚ
  y2 : ℚ
deriving DecidableEq, Repr, Inhabited

def recBox (r : Rec) : Box4 := ⟨r.x1, r.y1, r.x2, r.y2⟩

/-- `bb_iou_array` / the inner `bb_iou_array` of `find_matching_box_fast`,
for one pair of boxes (the numpy version maps this over an array). -/
def bbIou (a b : Box4) : ℚ :=
  let xA := max a.x1 b.x1
  let yA := max a.y1 b.y1
  let xB := min a.x2 b.x2
  let yB := min a.y2 b.y2
  let inter := max (xB - xA) 0 * max (yB - yA) 0
  let areaA := (a.x2 - a.x1) * (a.y2 - a.y1)
  let areaB := (b.x2 - b.x1) * (b.y2 - b.y1)
  inter / (areaA + areaB - inter)

/-- `merge_boxes`: envelope union of two boxes. -/
def mergeBoxes (b1 b2 : Box4) : Box4 :=
  ⟨min b1.x1 b2.x1, min b1.y1 b2.y1, max b1.x2 b2.x2, max b1.y2 b2.y2⟩

/-- `expand_boxes` on a single row: scale width by `rx` and height by `ry`
about the center, then `np.clip(_, 0, 1)`. -/
def expandBox (rx ry : ℚ) (b : Box4) : Box4 :=
  let dw := (b.x2 - b.x1) / 2 * (rx - 1)
  let dh := (b.y2 - b.y1) / 2 * (ry - 1)
  ⟨clamp01 (b.x1 - dw), clamp01 (b.y1 - dh), clamp01 (b.x2 + dw), clamp01 (b.y2 + dh)⟩

/-- `expand_boxes` (row-wise, as the numpy code is elementwise per row). -/
def expandBoxes (rx ry : ℚ) (bs : List Box4) : List Box4 := bs.map (expandBox rx ry)

/-- The proximity score of `match_with_title`:
`min(|title.y2 - chart.y1|, |chart.y2 - title.y1|) + |title.x1 - chart.x1|`
(`np.min([dist_above, dist_below], 0) + dist_left`). -/
def proxScore (chart tb : Box4) : ℚ :=
  min |tb.y2 - chart.y1| |chart.y2 - tb.y1| + |tb.x1 - chart.x1|

/-- `match_with_title(chart_bbox, title_bboxes, iou_th)`. Returns the merged
chart box and the reduced title pool, or `none` when there is no match. -/
def matchWithTitle (chart : Box4) (titles : List Box4) (iouTh : ℚ) :
    Option (Box4 × List Box4) :=
  if titles = [] then none
  else
    let ious := titles.map (fun tb => bbIou tb chart)
    let msel : Option (List ℕ) :=
      if qmax ious > iouTh then
        some ((List.range titles.length).filter (fun i => ious.getD i 0 > iouTh))
      else
        let dists := titles.map (fun tb => proxScore chart tb)
        if qmin dists < 1/10 then some [argminIdx dists] else none
    msel.map (fun ms =>
      (ms.foldl (fun b i => mergeBoxes b (titles.getD i default)) chart,
       ((List.range titles.length).filter (fun i => i ∉ ms)).filterMap
         (fun i => titles.get? i)))

/-- The box-repair part of `prefilter_boxes`: swap inverted coordinates,
clamp to `[0, 1]`, and drop zero-area boxes. -/
def boxDataChecks (bx1 by1 bx2 by2 : ℚ) : Option Box4 :=
  let p := if bx2 < bx1 then (bx2, bx1) else (bx1, bx2)
  let q := if by2 < by1 then (by2, by1) else (by1, by2)
  let x1 := clamp01 p.1
  let x2 := clamp01 p.2
  let y1 := clamp01 q.1
  let y2 := clamp01 q.2
  if (x2 - x1) * (y2 - y1) = 0 then none else some ⟨x1, y1, x2, y2⟩

/-- The per-model record-building loop of `prefilter_boxes` (model `t`,
all weights are `np.ones`, so `weights[t] = 1`). -/
def prefilterOne (t : ℕ) (bs : List Box4) (ss ls : List ℚ) (thr : ℚ) : List Rec :=
  (bs.zip (ss.zip ls)).filterMap (fun bsl =>
    if bsl.2.1 < thr then none
    else (boxDataChecks bsl.1.x1 bsl.1.y1 bsl.1.x2 bsl.1.y2).map (fun bb =>
      { lab := (intTrunc bsl.2.2 : ℚ), score := bsl.2.1 * 1, w := 1, t := (t : ℚ),
        x1 := bb.x1, y1 := bb.y1, x2 := bb.x2, y2 := bb.y2 }))

/-- Append a record to its bucket in an association list keyed by the
Python dict key (`none` models the class-agnostic key `"*"`); a new key is
appended at the end, matching Python dict insertion order. -/
def addToBuckets (k : Option ℚ) (r : Rec) :
    List (Option ℚ × List Rec) → List (Option ℚ × List Rec)
  | [] => [(k, [r])]
  | (k1, rs) :: rest =>
    if k1 = k then (k1, rs ++ [r]) :: rest else (k1, rs) :: addToBuckets k r rest

/-- Bucket records by label (or into the single `"*"` bucket). -/
def bucketize (ca : Bool) (rs : List Rec) : List (Option ℚ × List Rec) :=
  rs.foldl (fun acc r => addToBuckets (if ca then none else some r.lab) r acc) []

/-- Insertion step of the descending sort by key (ties keep earlier
elements first). -/
def insertDesc (key : Rec → ℚ) (a : Rec) : List Rec → List Rec
  | [] => [a]
  | b :: bs => if key a > key b then a :: b :: bs else b :: insertDesc key a bs

/-- `arr[arr[:, 1].argsort()[::-1]]`: sort descending by key. -/
def sortDesc (key : Rec → ℚ) : List Rec → List Rec
  | [] => []
  | a :: as => insertDesc key a (sortDesc key as)

/-- `prefilter_boxes(boxes, scores, labels, np.ones, thr, class_agnostic)`.
`none` models the `exit()` on mismatched lengths (and the `IndexError` a
too-short scores/labels list would raise). -/
def prefilterBoxes (bss : List (List Box4)) (sss lss : List (List ℚ))
    (thr : ℚ) (ca : Bool) : Option (List (List Rec)) :=
  if sss.length < bss.length ∨ lss.length < bss.length then none
  else if ((bss.zip (sss.zip lss)).enum).any (fun m =>
      m.2.1.length ≠ m.2.2.1.length ∨ m.2.1.length ≠ m.2.2.2.length) then none
  else
    some ((bucketize ca (((bss.zip (sss.zip lss)).enum).foldl
      (fun acc m => acc ++ prefilterOne m.1 m.2.1 m.2.2.1 m.2.2.2 thr) [])).map
        (fun b => sortDesc Rec.score b.2))

/-- `find_matching_box_fast(boxes[ids], boxes[j], iou_thr)`: `(-1, thr)` when
no other box has IoU above the threshold, else the argmax index (into
`others`) and its IoU. -/
def findMatchingBoxFast (others : List Rec) (nb : Rec) (matchIou : ℚ) : ℤ × ℚ :=
  if others.length = 0 then (-1, matchIou)
  else
    let ious := others.map (fun r => bbIou (recBox r) (recBox nb))
    let bi := argmaxIdx ious
    let bv := ious.getD bi 0
    if bv ≤ matchIou then (-1, matchIou) else ((bi : ℤ), bv)

/-- Sorted insertion without duplicates (ascending). -/
def sortedInsertNat (n : ℕ) : List ℕ → List ℕ
  | [] => [n]
  | m :: ms =>
    if n < m then n :: m :: ms
    else if n = m then m :: ms
    else m :: sortedInsertNat n ms

/-- Python `list(set(l))` for small non-negative ints: deduplicated ascending
list (CPython iterates small-int sets in ascending slot order). -/
def listSetNat (l : List ℕ) : List ℕ := l.foldl (fun acc n => sortedInsertNat n acc) []

/-- One iteration of the WBF clustering loop (`for j in range(len(boxes))`). -/
def clusterStep (boxes : List Rec) (iouThr : ℚ) (clusters : List (List ℕ))
    (j : ℕ) : List (List ℕ) :=
  let ids := (List.range boxes.length).filter (fun i => i ≠ j)
  let bj := boxes.getD j default
  let fm := findMatchingBoxFast (ids.map (fun i => boxes.getD i default)) bj iouThr
  if fm.1 = -1 then clusters ++ [[j]]
  else
    let index := ids.getD fm.1.toNat 0
    match clusters.findIdx? (fun c => decide (j ∈ c ∨ index ∈ c)) with
    | some ci => clusters.set ci (listSetNat (clusters.getD ci [] ++ [index, j]))
    | none => clusters ++ [[index, j]]

/-- The greedy clustering pass of `weighted_boxes_fusion` over one bucket. -/
def buildClusters (boxes : List Rec) (iouThr : ℚ) : List (List ℕ) :=
  (List.range boxes.length).foldl (clusterStep boxes iouThr) []

/-- `merge_labels(labels, confs)`.  `none` models the `IndexError` raised
when `np.argmax(confs[confs != 2])` indexes past the end of
`labels[labels != 2]`, and the error `np.argmax` raises on an empty array. -/
def mergeLabels (labels confs : List ℚ) : Option ℚ :=
  match labels with
  | [] => none
  | l0 :: rest =>
    if rest.all (fun l => l = l0) then some l0
    else if confs.filter (fun c => c ≠ 2) = [] then none
    else (labels.filter (fun l => l ≠ 2)).get?
      (argmaxIdx (confs.filter (fun c => c ≠ 2)))

/-- `get_biggest_box(boxes, conf_type)`: envelope-of-extremes merge. -/
def getBiggestBox (boxes : List Rec) (confType : String) : Option Rec :=
  match boxes with
  | [] => none
  | b0 :: _ =>
    let x1 := boxes.foldl (fun a b => min a b.x1) b0.x1
    let y1 := boxes.foldl (fun a b => min a b.y1) b0.y1
    let x2 := boxes.foldl (fun a b => max a b.x2) b0.x2
    let y2 := boxes.foldl (fun a b => max a b.y2) b0.y2
    let confList := boxes.map Rec.score
    let w := boxes.foldl (fun a b => a + b.w) 0
    (mergeLabels (boxes.map Rec.lab) (boxes.map Rec.score)).map (fun lab =>
      { lab := lab,
        score := if confType = "max" then qmax confList else qmean confList,
        w := w, t := -1, x1 := x1, y1 := y1, x2 := x2, y2 := y2 })

/-- `get_weighted_box(boxes, conf_type)`: confidence-weighted mean merge. -/
def getWeightedBox (boxes : List Rec) (confType : String) : Option Rec :=
  let conf := boxes.foldl (fun a b => a + b.score) 0
  let sx1 := boxes.foldl (fun a b => a + b.score * b.x1) 0
  let sy1 := boxes.foldl (fun a b => a + b.score * b.y1) 0
  let sx2 := boxes.foldl (fun a b => a + b.score * b.x2) 0
  let sy2 := boxes.foldl (fun a b => a + b.score * b.y2) 0
  let confList := boxes.map Rec.score
  let w := boxes.foldl (fun a b => a + b.w) 0
  (mergeLabels (boxes.map Rec.lab) (boxes.map Rec.score)).map (fun lab =>
    { lab := lab,
      score := if confType = "max" then qmax confList else qmean confList,
      w := w, t := -1,
      x1 := sx1 / conf, y1 := sy1 / conf, x2 := sx2 / conf, y2 := sy2 / conf })

/-- Merge one cluster `c` of bucket indices and apply the confidence
rescaling of `weighted_boxes_fusion` (all weights are 1, so
`weights.max() = 1` and `weights.sum() = nModels`). -/
def mergeCluster (mergeType confType : String) (nModels : ℕ) (bucket : List Rec)
    (c : List ℕ) : Option Rec :=
  let members := c.filterMap (fun i => bucket.get? i)
  let mb := if mergeType = "weighted" then getWeightedBox members confType
            else getBiggestBox members confType
  mb.map (fun b =>
    if confType = "max" then { b with score := b.score / 1 }
    else { b with score := b.score * (c.length : ℚ) / (nModels : ℚ) })

/-- `Option`-valued `mapM` with plain structural recursion. -/
def omap (f : α → Option β) : List α → Option (List β)
  | [] => some []
  | a :: as => do
    let b ← f a
    let bs ← omap f as
    pure (b :: bs)

/-- `weighted_boxes_fusion(boxes_list, scores_list, labels_list, iou_thr,
skip_box_thr, conf_type, merge_type, class_agnostic)`.  `none` models the
assertion failures, the `exit()` on mismatched lengths and the
`merge_labels` `IndexError`. -/
def weightedBoxesFusion (bss : List (List Box4)) (sss lss : List (List ℚ))
    (iouThr skipThr : ℚ) (confType mergeType : String) (ca : Bool) :
    Option (List Box4 × List ℚ × List ℚ) :=
  if confType ≠ "avg" ∧ confType ≠ "max" then none
  else if mergeType ≠ "weighted" ∧ mergeType ≠ "biggest" then none
  else do
    let buckets ← prefilterBoxes bss sss lss skipThr ca
    if buckets = [] then some ([], [], [])
    else do
      let n := bss.length
      let merged ← omap (fun bucket =>
        omap (mergeCluster mergeType confType n bucket) (buildClusters bucket iouThr))
        buckets
      let overall := sortDesc Rec.score merged.flatten
      pure (overall.map recBox, overall.map Rec.score, overall.map Rec.lab)

/-- Rounding of a `[x1, y1, x2, y2, score]` row:
`[round(float(x), 4) for x in bbox + [score]]`. -/
def roundDet (b : Det) : Det :=
  ⟨round4 b.x1, round4 b.y1, round4 b.x2, round4 b.y2, round4 b.s⟩

/-- The per-table-row update of `expand_table_bboxes`:
`bbox[1] = max(0.0, min(1.0, bbox[1] - height * 0.2))`, then rounding. -/
def expandTableRow (b : Det) : Det :=
  let height := b.y2 - b.y1
  roundDet ⟨b.x1, max 0 (min 1 (b.y1 - height * (1/5))), b.x2, b.y2, b.s⟩

/-- `expand_table_bboxes(annotation_dict)`. -/
def expandTableBboxes (d : AnnotDict) : AnnotDict :=
  if d.table = [] then d
  else { table := d.table.map expandTableRow,
         chart := d.chart.map roundDet,
         title := d.title.map roundDet }

/-- The concatenated `(bboxes, confidences, label_idxs)` batch that
`expand_chart_bboxes` feeds to the fusion engine (label indices
`0 = table, 1 = chart, 2 = title`). -/
def chartFusionItems (d : AnnotDict) : List (Box4 × ℚ × ℚ) :=
  d.table.map (fun b => (detBox b, b.s, (0 : ℚ)))
    ++ d.chart.map (fun b => (detBox b, b.s, (1 : ℚ)))
    ++ d.title.map (fun b => (detBox b, b.s, (2 : ℚ)))

/-- The `weighted_boxes_fusion` call of `expand_chart_bboxes`
(`bboxes[:, None]` etc. make every box its own one-element list). -/
def chartWbf (d : AnnotDict) : Option (List Box4 × List ℚ × List ℚ) :=
  let items := chartFusionItems d
  weightedBoxesFusion (items.map (fun it => [it.1])) (items.map (fun it => [it.2.1]))
    (items.map (fun it => [it.2.2])) (1/100) 0 "max" "biggest" false

/-- One iteration of the chart/title matching loop of `expand_chart_bboxes`:
state is `(chart boxes, title pool, found idxs, not-found idxs)`. -/
def chartMatchStep (st : List Box4 × List Box4 × List ℕ × List ℕ) (i : ℕ) :
    List Box4 × List Box4 × List ℕ × List ℕ :=
  match matchWithTitle (st.1.getD i default) st.2.1 (1/100) with
  | some m => (st.1.set i m.1, m.2, st.2.2.1 ++ [i], st.2.2.2)
  | none => (st.1, st.2.1, st.2.2.1, st.2.2.2 ++ [i])

/-- `expand_chart_bboxes(annotation_dict)`. -/
def expandChartBboxes (d : AnnotDict) : Option AnnotDict :=
  if d.chart = [] then some d
  else do
    let fused ← chartWbf d
    let rows := fused.1.zip (fused.2.1.zip fused.2.2)
    let chartRows := rows.filter (fun r => r.2.2 = 1)
    let chartBoxes := chartRows.map (fun r => r.1)
    let chartConfs := chartRows.map (fun r => r.2.1)
    let titleBoxes := (rows.filter (fun r => r.2.2 = 2)).map (fun r => r.1)
    let looped := (List.range chartBoxes.length).foldl chartMatchStep
      (chartBoxes, titleBoxes, [], [])
    let finalCharts := (List.range looped.1.length).map (fun i =>
      if i ∈ looped.2.2.1 then expandBox (21/20) (11/10) (looped.1.getD i default)
      else expandBox (11/10) (5/4) (looped.1.getD i default))
    pure { table := d.table,
           chart := (finalCharts.zip chartConfs).map (fun p =>
             ⟨p.1.x1, p.1.y1, p.1.x2, p.1.y2, p.2⟩),
           title := d.title }

/-- The final threshold filter of `process_inference_results`: drop `table`
and `chart` entries with confidence strictly below `final_thresh`; `title`
entries are kept as they are. -/
def finalFilter (d : AnnotDict) (thresh : ℚ) : AnnotDict :=
  { table := d.table.filter (fun b => thresh ≤ b.s),
    chart := d.chart.filter (fun b => thresh ≤ b.s),
    title := d.title }

/-- `process_inference_results` on the http path (the already-postprocessed
annotation dictionaries): table expansion, chart expansion, final filter. -/
def processInferenceResultsHttp (results : List AnnotDict) (finalThresh : ℚ) :
    Option (List AnnotDict) := do
  let step1 := results.map expandTableBboxes
  let step2 ← omap expandChartBboxes step1
  pure (step2.map (fun d => finalFilter d finalThresh))

/-- A raw per-image result row is malformed when it has fewer than the 7
columns `[x1, y1, x2, y2, obj_conf, class_conf, label]` that
`postprocess_results` indexes. -/
def malformedImage (rows : List (List ℚ)) : Bool :=
  rows.any (fun r => r.length < 7)

/-- The per-image body of `postprocess_results` (the `try` block plus the
bucketing loop).  An `Except.error` models the `ValueError` re-raised from
the `try` block and the uncaught `IndexError` of `class_labels[int(label)]`
(Python list indexing admits negative indices down to `-3`). -/
def postprocessImage (shape : ℚ × ℚ) (rows : List (List ℚ)) (minScore : ℚ) :
    Except String AnnotDict :=
  if shape.1 = 0 ∨ shape.2 = 0 ∨ malformedImage rows then
    Except.error "Error in postprocessing"
  else
    let ratio := min (1024 / shape.1) (1024 / shape.2)
    let kept := rows.filter (fun r => r.getD 4 0 * r.getD 5 0 > minScore)
    kept.foldlM (fun (d : AnnotDict) r =>
      let sc := r.getD 4 0 * r.getD 5 0
      let det : Det :=
        ⟨round4 (clamp01 (r.getD 0 0 / ratio / shape.2)),
         round4 (clamp01 (r.getD 1 0 / ratio / shape.1)),
         round4 (clamp01 (r.getD 2 0 / ratio / shape.2)),
         round4 (clamp01 (r.getD 3 0 / ratio / shape.1)),
         round4 sc⟩
      let lab := intTrunc (r.getD 6 0)
      let idx := if lab < 0 then lab + 3 else lab
      if idx = 0 then pure { d with table := d.table ++ [det] }
      else if idx = 1 then pure { d with chart := d.chart ++ [det] }
      else if idx = 2 then pure { d with title := d.title ++ [det] }
      else Except.error "list index out of range")
      (⟨[], [], []⟩ : AnnotDict)

/-- `postprocess_results(results, original_image_shapes, min_score)`:
`zip` truncates at the shorter input; a `None` per-image result yields the
empty annotation dictionary; a raised error aborts the whole batch. -/
def postprocessResults (shapes : List (ℚ × ℚ))
    (results : List (Option (List (List ℚ)))) (minScore : ℚ) :
    Except String (List AnnotDict) :=
  match shapes, results with
  | s :: ss, r :: rs =>
    match (match r with
           | none => Except.ok (⟨[], [], []⟩ : AnnotDict)
           | some rows => postprocessImage s rows minScore) with
    | Except.ok d => (postprocessResults ss rs minScore).map (fun l => d :: l)
    | Except.error e => Except.error e
  | _, _ => Except.ok []

/-- The merged-label rule as the spec words it: if all members share one
label use it; otherwise exclude the members labeled `Title` (class 2) and
take the label of the highest-confidence remaining member, ties broken by
array order. -/
def specMergeLabel (labels confs : List ℚ) : Option ℚ :=
  match labels with
  | [] => none
  | l0 :: rest =>
    if rest.all (fun l => l = l0) then some l0
    else
      (((labels.zip confs).filter (fun p => p.1 ≠ 2)).get?
        (argmaxIdx (((labels.zip confs).filter (fun p => p.1 ≠ 2)).map Prod.snd))).map
        Prod.fst

/-- The chart/title association rule as the spec words it: compute the IoU
against every remaining title; if the maximum exceeds 0.01, every title
with IoU above 0.01 is a match; otherwise, if the minimum proximity score
`min(|title.y2 − chart.y1|, |chart.y2 − title.y1|) + |title.x1 − chart.x1|`
is below 0.1, the nearest title (the first attaining the minimum) is the
single match.  Matched titles are merged into the chart box by repeated
envelope union and removed from the pool. -/
def specMatchWithTitle (chart : Box4) (titles : List Box4) : Option (Box4 × List Box4) :=
  match titles with
  | [] => none
  | _ :: _ =>
    if ∃ tb ∈ titles, bbIou tb chart > 1/100 then
      some (titles.foldl
              (fun b tb => if bbIou tb chart > 1/100 then mergeBoxes b tb else b) chart,
            titles.filter (fun tb => ¬ (bbIou tb chart > 1/100)))
    else if ∃ tb ∈ titles, proxScore chart tb < 1/10 then
      some (mergeBoxes chart
              (titles.getD (titles.findIdx (fun tb =>
                proxScore chart tb = qmin (titles.map (fun u => proxScore chart u)))) default),
            titles.eraseIdx (titles.findIdx (fun tb =>
              proxScore chart tb = qmin (titles.map (fun u => proxScore chart u)))))
    else none

/-- A well-formed, positive-area normalized box. -/
def ValidPos (b : Box4) : Prop :=
  0 ≤ b.x1 ∧ b.x1 < b.x2 ∧ b.x2 ≤ 1 ∧ 0 ≤ b.y1 ∧ b.y1 < b.y2 ∧ b.y2 ≤ 1

instance : DecidablePred ValidPos := fun b => by unfold ValidPos; infer_instance

lemma clamp01_nonneg (q : ℚ) : 0 ≤ clamp01 q := by
  unfold clamp01; split
  · rfl
  · split
    · norm_num
    · linarith [not_lt.mp ‹¬ q < 0›]

lemma clamp01_le_one (q : ℚ) : clamp01 q ≤ 1 := by
  unfold clamp01; split
  · norm_num
  · split
    · rfl
    · linarith [not_lt.mp ‹¬ q > 1›]

lemma clamp01_eq_self (q : ℚ) (h0 : 0 ≤ q) (h1 : q ≤ 1) : clamp01 q = q := by
  unfold clamp01; rw [if_neg (not_lt.mpr h0), if_neg (not_lt.mpr h1)]

lemma clamp01_mono {a b : ℚ} (h : a ≤ b) : clamp01 a ≤ clamp01 b := by
  unfold clamp01
  split <;> split <;> try linarith
  all_goals split <;> try linarith
  all_goals split <;> linarith

/-- C4: for a fixed input annotation dictionary, raising `final_thresh`
never increases the number of `table` or `chart` detections kept by the
final threshold filter, and a detection whose confidence equals
`final_thresh` exactly is kept (the filter uses `>=`). -/
theorem c4_threshold_monotone (d : AnnotDict) (t t' : ℚ) (h : t ≤ t') :
    ((finalFilter d t').table.length ≤ (finalFilter d t).table.length ∧
     (finalFilter d t').chart.length ≤ (finalFilter d t).chart.length) ∧
    ((∀ b ∈ d.table, b.s = t → b ∈ (finalFilter d t).table) ∧
     (∀ b ∈ d.chart, b.s = t → b ∈ (finalFilter d t).chart)) := by
  constructor
  · constructor <;>
    · apply List.Sublist.length_le
      apply List.monotone_filter_right
      intro b hb
      simp only [decide_eq_true_eq] at hb ⊢
      linarith
  · constructor <;>
    · intro b hb hs
      simp only [finalFilter, List.mem_filter, decide_eq_true_eq]
      exact ⟨hb, le_of_eq hs.symm⟩

/-- Witness for `c4_threshold_monotone` at a concrete input. -/
theorem c4_witness :
    ((1 : ℚ)/2 ≤ 3/5) ∧
    (finalFilter ⟨[⟨0, 0, 1, 1, 1/2⟩], [], []⟩ (3/5)).table.length ≤
      (finalFilter ⟨[⟨0, 0, 1, 1, 1/2⟩], [], []⟩ (1/2)).table.length ∧
    (⟨0, 0, 1, 1, 1/2⟩ : Det) ∈ (finalFilter ⟨[⟨0, 0, 1, 1, 1/2⟩], [], []⟩ (1/2)).table := by
  have h := c4_threshold_monotone ⟨[⟨0, 0, 1, 1, 1/2⟩], [], []⟩ (1/2) (3/5) (by norm_num)
  exact ⟨by norm_num, h.1.1, h.2.1 ⟨0, 0, 1, 1, 1/2⟩ (by simp) (by norm_num)⟩

/-- C5 counterexample: table caption expansion does NOT leave `x1`
unchanged in general — every coordinate is rounded to 4 decimal places, so
a table box with `x1 = 0.12341` comes back with `x1 = 0.1234`. -/
theorem c5_counterexample :
    (expandTableBboxes ⟨[⟨12341/100000, 3/10, 1/2, 1/2, 9/10⟩], [], []⟩).table =
      [⟨617/5000, 13/50, 1/2, 1/2, 9/10⟩] ∧ ((617 : ℚ)/5000 ≠ 12341/100000) := by
  constructor
  · norm_num [expandTableBboxes, expandTableRow, roundDet, round4, roundHalfEven,
      Int.floor_eq_iff]
  · norm_num

/-- C5 (amended): for every `Table` detection the expansion replaces `y1`
by `max(0, min(1, y1 − 0.2·(y2 − y1)))` and rounds all of `x1, y1, x2, y2`
and the confidence to 4 decimal places (so they are unchanged exactly when
already at 4-decimal precision); detections of other labels pass through
with the same 4-decimal rounding; when there are no table detections the
whole set is returned unchanged; and the example table box
`[0.1, 0.3, 0.5, 0.5]` comes back with `y1 = 0.26`. -/
theorem c5_table_expansion (d : AnnotDict) :
    (d.table = [] → expandTableBboxes d = d) ∧
    (d.table ≠ [] →
      (∀ i : ℕ, (expandTableBboxes d).table.get? i = (d.table.get? i).map (fun b =>
        ⟨round4 b.x1, round4 (max 0 (min 1 (b.y1 - (b.y2 - b.y1) * (1/5)))),
         round4 b.x2, round4 b.y2, round4 b.s⟩)) ∧
      (∀ i : ℕ, (expandTableBboxes d).chart.get? i = (d.chart.get? i).map roundDet) ∧
      (∀ i : ℕ, (expandTableBboxes d).title.get? i = (d.title.get? i).map roundDet)) ∧
    (expandTableBboxes ⟨[⟨1/10, 3/10, 1/2, 1/2, 9/10⟩], [], []⟩).table =
      [⟨1/10, 13/50, 1/2, 1/2, 9/10⟩] := by
  refine ⟨fun h => ?_, fun h => ⟨fun i => ?_, fun i => ?_, fun i => ?_⟩, ?_⟩
  · rw [expandTableBboxes, if_pos h]
  · rw [expandTableBboxes, if_neg h]
    simp only [List.get?_map]
    rfl
  · rw [expandTableBboxes, if_neg h]
    simp only [List.get?_map]
  · rw [expandTableBboxes, if_neg h]
    simp only [List.get?_map]
  · norm_num [expandTableBboxes, expandTableRow, roundDet, round4, roundHalfEven,
      Int.floor_eq_iff]

/-- Concrete instantiation used by the witness of `c5_table_expansion`. -/
def d5c : AnnotDict := ⟨[⟨1/10, 3/10, 1/2, 1/2, 9/10⟩], [], []⟩

/-- Witness for `c5_table_expansion`. -/
theorem c5_witness :
    (expandTableBboxes d5c).table.get? 0 = (d5c.table.get? 0).map (fun b =>
      ⟨round4 b.x1, round4 (max 0 (min 1 (b.y1 - (b.y2 - b.y1) * (1/5)))),
       round4 b.x2, round4 b.y2, round4 b.s⟩) :=
  ((c5_table_expansion d5c).2.1 (by simp [d5c])).1 0

/-- C7 counterexample: with `conf_type = "avg"` the confidence returned by
the fusion engine is NOT the mean of the member confidences.  One input
list with two identical boxes of confidences `0.8` and `0.6` fuses into a
single cluster whose returned confidence is `mean · |cluster| / weights.sum
= 0.7 · 2 / 1 = 1.4`, not the mean `0.7`. -/
theorem c7_counterexample :
    weightedBoxesFusion [[⟨1/10, 1/10, 1/2, 1/2⟩, ⟨1/10, 1/10, 1/2, 1/2⟩]]
        [[4/5, 3/5]] [[0, 0]] (1/2) 0 "avg" "weighted" false =
      some ([⟨1/10, 1/10, 1/2, 1/2⟩], [7/5], [0]) ∧
    qmean [4/5 * 1, 3/5 * 1] = 7/10 ∧ ((7 : ℚ)/5 ≠ 7/10) := by
  refine ⟨?_, by norm_num [qmean], by norm_num⟩
  norm_num [weightedBoxesFusion, prefilterBoxes, prefilterOne, boxDataChecks, clamp01,
    bucketize, addToBuckets, sortDesc, insertDesc, buildClusters, clusterStep,
    findMatchingBoxFast, argmaxIdx, qmax, bbIou, recBox, listSetNat, sortedInsertNat,
    mergeCluster, getWeightedBox, mergeLabels, qmean, omap, intTrunc,
    List.enum, List.enumFrom, List.zip, List.zipWith, List.filterMap_cons,
    List.range_succ, List.findIdx_cons, List.findIdx_nil, List.findIdx?_cons,
    List.findIdx?_nil, show (("avg" : String) = "max") = False from by simp,
    show (("avg" : String) = "avg") = True from by simp,
    show (("weighted" : String) = "weighted") = True from by simp]

/-- C7 (amended): for every cluster merged by the engine (either merge
policy), the confidence handed back to the caller equals the maximum of
the member confidences divided by `weights.max() = 1` when
`conf_type = "max"`, and equals the mean of the member confidences times
the cluster size divided by `weights.sum()` (the number of input lists)
when `conf_type = "avg"` — the plain mean only when the cluster size
equals the number of input lists. -/
theorem c7_merged_confidence (mt ct : String) (n : ℕ) (bucket : List Rec)
    (c : List ℕ) (r : Rec) (h : mergeCluster mt ct n bucket c = some r) :
    (ct = "max" →
      r.score = qmax ((c.filterMap (fun i => bucket.get? i)).map Rec.score) / 1) ∧
    (ct = "avg" →
      r.score = qmean ((c.filterMap (fun i => bucket.get? i)).map Rec.score)
        * (c.length : ℚ) / (n : ℚ)) := by
  rw [mergeCluster] at h
  obtain ⟨b, hb, hr⟩ := Option.map_eq_some'.mp h
  constructor
  · rintro rfl
    simp only [if_pos rfl] at hr
    subst hr
    split at hb
    · obtain ⟨lab, hml, hbeq⟩ := Option.map_eq_some'.mp hb
      subst hbeq; simp [getWeightedBox]
    · rw [getBiggestBox.eq_def] at hb
      split at hb
      · exact absurd hb (by simp)
      · obtain ⟨lab, hml, hbeq⟩ := Option.map_eq_some'.mp hb
        subst hbeq; simp
  · rintro rfl
    simp only [show (("avg" : String) = "max") = False from by simp, if_false] at hr
    subst hr
    split at hb
    · obtain ⟨lab, hml, hbeq⟩ := Option.map_eq_some'.mp hb
      subst hbeq; simp [getWeightedBox]
    · rw [getBiggestBox.eq_def] at hb
      split at hb
      · exact absurd hb (by simp)
      · obtain ⟨lab, hml, hbeq⟩ := Option.map_eq_some'.mp hb
        subst hbeq; simp

/-- Concrete bucket used by the witness of `c7_merged_confidence`. -/
def bucket7 : List Rec :=
  [⟨0, 4/5, 1, 0, 1/10, 1/10, 1/2, 1/2⟩, ⟨0, 3/5, 1, 1, 1/10, 1/10, 1/2, 1/2⟩]

/-- Concrete merged record used by the witness of `c7_merged_confidence`. -/
def rec7 : Rec := ⟨0, 7/5, 2, -1, 1/10, 1/10, 1/2, 1/2⟩

/-- Witness for `c7_merged_confidence`. -/
theorem c7_witness :
    mergeCluster "weighted" "avg" 1 bucket7 [0, 1] = some rec7 ∧
    rec7.score =
      qmean ((([0, 1] : List ℕ).filterMap (fun i => bucket7.get? i)).map Rec.score)
        * ((([0, 1] : List ℕ).length : ℕ) : ℚ) / ((1 : ℕ) : ℚ) := by
  have hm : mergeCluster "weighted" "avg" 1 bucket7 [0, 1] = some rec7 := by
    norm_num [mergeCluster, getWeightedBox, mergeLabels, qmean, qmax, bucket7, rec7,
      List.filterMap_cons, List.filterMap_nil, List.getElem?_cons_zero,
      List.getElem?_cons_succ, List.get?_eq_getElem?,
      show (("avg" : String) = "max") = False from by simp,
      show (("weighted" : String) = "weighted") = True from by simp]
  exact ⟨hm, (c7_merged_confidence "weighted" "avg" 1 bucket7 [0, 1] rec7 hm).2 rfl⟩

/-- C8 counterexample: a malformed raw result for image 0 (a row with fewer
than 7 columns) makes `postprocess_results` raise for the WHOLE batch: the
valid image 1 is not processed and nothing is returned. -/
theorem c8_counterexample :
    postprocessResults [(100, 100), (100, 100)]
      [some [[0]], some [[10, 10, 50, 50, 9/10, 1, 0]]] (1/10) =
    Except.error "Error in postprocessing" := by
  norm_num [postprocessResults, postprocessImage, malformedImage]

/-- C8 (amended): when any image of the batch has a malformed raw tensor
(a row with fewer than the 7 columns the code indexes), the whole
`postprocess_results` call raises a single `ValueError` whose message names
the offending result's shape, not the image index; the error aborts the
entire batch and no per-image results are emitted at all. -/
theorem c8_batch_abort (shapes : List (ℚ × ℚ))
    (results : List (Option (List (List ℚ)))) (ms : ℚ)
    (h : ∃ p ∈ shapes.zip results, ∃ rows, p.2 = some rows ∧ malformedImage rows = true) :
    ∃ e, postprocessResults shapes results ms = Except.error e := by
  induction shapes generalizing results with
  | nil => simp at h
  | cons s ss ih =>
    cases results with
    | nil => simp at h
    | cons r rs =>
      rw [List.zip_cons_cons] at h
      rcases h with ⟨p, hp, rows, hrows, hmal⟩
      rcases List.mem_cons.mp hp with heq | htail
      · subst heq
        simp only at hrows
        subst hrows
        have himg : postprocessImage s rows ms = Except.error "Error in postprocessing" := by
          rw [postprocessImage, if_pos (Or.inr (Or.inr hmal))]
        exact ⟨"Error in postprocessing", by simp [postprocessResults, himg]⟩
      · obtain ⟨e, he⟩ := ih rs ⟨p, htail, rows, hrows, hmal⟩
        cases r with
        | none => exact ⟨e, by simp [postprocessResults, he, Except.map]⟩
        | some rows0 =>
          cases hh : postprocessImage s rows0 ms with
          | ok d => exact ⟨e, by simp [postprocessResults, hh, he, Except.map]⟩
          | error e0 => exact ⟨e0, by simp [postprocessResults, hh]⟩

/-- Witness for `c8_batch_abort`. -/
theorem c8_witness :
    ∃ e, postprocessResults [((100 : ℚ), (100 : ℚ))] [some [[0]]] (1/10) =
      Except.error e :=
  c8_batch_abort [((100 : ℚ), (100 : ℚ))] [some [[0]]] (1/10)
    ⟨(((100 : ℚ), (100 : ℚ)), some [[0]]), by simp, [[0]], rfl, by norm_num [malformedImage]⟩

/-- C9: empty input is never an error in the core: the fusion engine maps
empty box/score/label sequences to empty outputs, and an image whose raw
result is `None` (no detections survived NMS) or whose candidates are all
removed by the confidence filter yields an annotation dictionary with
three empty lists, not an error. -/
theorem c9_empty_input :
    (∀ (iouThr skipThr : ℚ) (ca : Bool) (ct mt : String),
      (ct = "avg" ∨ ct = "max") → (mt = "weighted" ∨ mt = "biggest") →
      weightedBoxesFusion [] [] [] iouThr skipThr ct mt ca = some ([], [], [])) ∧
    (∀ (s : ℚ × ℚ) (ms : ℚ),
      postprocessResults [s] [none] ms = Except.ok [⟨[], [], []⟩]) ∧
    (∀ (s : ℚ × ℚ) (rows : List (List ℚ)) (ms : ℚ), s.1 ≠ 0 → s.2 ≠ 0 →
      (∀ r ∈ rows, 7 ≤ r.length) → (∀ r ∈ rows, r.getD 4 0 * r.getD 5 0 ≤ ms) →
      postprocessResults [s] [some rows] ms = Except.ok [⟨[], [], []⟩]) := by
  refine ⟨?_, ?_, ?_⟩
  · rintro iouThr skipThr ca ct mt (rfl | rfl) (rfl | rfl) <;> rfl
  · intro s ms
    rfl
  · intro s rows ms h1 h2 hlen hsc
    have himg : postprocessImage s rows ms = Except.ok ⟨[], [], []⟩ := by
      rw [postprocessImage, if_neg]
      · have hk : rows.filter (fun r => decide (r.getD 4 0 * r.getD 5 0 > ms)) = [] := by
          rw [List.filter_eq_nil_iff]
          intro r hr
          simp only [decide_eq_true_eq, not_lt]
          exact hsc r hr
        rw [hk]
        rfl
      · intro hcon
        rcases hcon with h | h | h
        · exact h1 h
        · exact h2 h
        · simp only [malformedImage, List.any_eq_true, decide_eq_true_eq] at h
          obtain ⟨r, hr, hlt⟩ := h
          exact absurd hlt (not_lt.mpr (hlen r hr))
    simp [postprocessResults, himg, Except.map]

/-- Witness for `c9_empty_input`. -/
theorem c9_witness :
    weightedBoxesFusion [] [] [] (1/2) 0 "avg" "weighted" false = some ([], [], []) ∧
    postprocessResults [((100 : ℚ), (100 : ℚ))] [none] (1/10) =
      Except.ok [⟨[], [], []⟩] ∧
    postprocessResults [((100 : ℚ), (100 : ℚ))] [some [[0, 0, 1, 1, 1/20, 1, 0]]] (1/10) =
      Except.ok [⟨[], [], []⟩] := by
  refine ⟨c9_empty_input.1 (1/2) 0 false "avg" "weighted" (Or.inl rfl) (Or.inl rfl),
    c9_empty_input.2.1 (100, 100) (1/10),
    c9_empty_input.2.2 (100, 100) [[0, 0, 1, 1, 1/20, 1, 0]] (1/10)
      (by norm_num) (by norm_num) ?_ ?_⟩
  · intro r hr
    simp only [List.mem_singleton] at hr
    subst hr
    simp
  · intro r hr
    simp only [List.mem_singleton] at hr
    subst hr
    norm_num

/-- C1: the title list returned by the chart/title fusion stage is the
input title list itself (matched titles are not removed), and the final
threshold filter never filters titles — so the output title list always
equals the input title list. -/
theorem c1_title_preserved (d out : AnnotDict) (t : ℚ)
    (hc : d.chart ≠ []) (h : expandChartBboxes d = some out) :
    out.title = d.title ∧ (finalFilter out t).title = d.title := by
  rw [expandChartBboxes, if_neg hc] at h
  cases hw : chartWbf d with
  | none => simp [hw] at h
  | some fused =>
    simp only [hw, Option.bind_eq_bind, Option.some_bind, Option.pure_def, Option.some.injEq] at h
    subst h
    exact ⟨rfl, rfl⟩

/-- Concrete input of the spec's chart/title scenario: one chart box
`[0.2, 0.2, 0.6, 0.4]` and one title box `[0.2, 0.05, 0.6, 0.18]` directly
above it. -/
def d1c : AnnotDict := ⟨[], [⟨1/5, 1/5, 3/5, 2/5, 9/10⟩], [⟨1/5, 1/20, 3/5, 9/50, 4/5⟩]⟩

/-- Output of `expand_chart_bboxes` on `d1c`: the chart merged with the
title (envelope `[0.2, 0.05, 0.6, 0.4]`) and expanded by `(1.05, 1.1)`;
the title list is returned unchanged. -/
def out1c : AnnotDict :=
  ⟨[], [⟨19/100, 13/400, 61/100, 167/400, 9/10⟩], [⟨1/5, 1/20, 3/5, 9/50, 4/5⟩]⟩

set_option maxHeartbeats 4000000 in
/-- Witness for `c1_title_preserved`: in the scenario where the single
title IS matched and merged into the chart box, the returned title list
still equals the input title list. -/
theorem c1_witness :
    d1c.chart ≠ [] ∧ expandChartBboxes d1c = some out1c ∧
    (finalFilter out1c (12/25)).title = d1c.title := by
  have hch : d1c.chart ≠ [] := by simp [d1c]
  have hm : matchWithTitle ⟨1/5,1/5,3/5,2/5⟩ [⟨1/5,1/20,3/5,9/50⟩] (1/100) =
      some (⟨1/5,1/20,3/5,2/5⟩, []) := by
    norm_num [matchWithTitle, proxScore, bbIou, qmax, qmin, argminIdx, mergeBoxes,
      abs_of_nonneg, abs_of_nonpos, List.range_succ, List.findIdx_cons, List.findIdx_nil,
      List.filterMap_cons]
  have he : expandChartBboxes d1c = some out1c := by
    norm_num [expandChartBboxes, d1c, out1c, chartWbf, chartFusionItems, detBox,
      weightedBoxesFusion, prefilterBoxes, prefilterOne, boxDataChecks, clamp01,
      bucketize, addToBuckets, sortDesc, insertDesc, buildClusters, clusterStep,
      findMatchingBoxFast, argmaxIdx, argminIdx, qmax, qmin, bbIou, recBox,
      listSetNat, sortedInsertNat, mergeCluster, getBiggestBox, mergeLabels, qmean,
      omap, intTrunc, hm, mergeBoxes, chartMatchStep, expandBox,
      List.enum, List.enumFrom, List.zip, List.zipWith, List.filterMap_cons,
      List.range_succ, List.findIdx_cons, List.findIdx_nil, List.findIdx?_cons,
      List.findIdx?_nil,
      show (("max" : String) = "avg") = False from by simp,
      show (("max" : String) = "max") = True from by simp,
      show (("biggest" : String) = "weighted") = False from by simp,
      show (("biggest" : String) = "biggest") = True from by simp]
    split
    · next hfalse => exact absurd hfalse (by simp)
    · norm_num [chartMatchStep, hm, mergeBoxes, expandBox, clamp01,
        List.range_succ, List.filterMap_cons, abs_of_nonneg, abs_of_nonpos]
  exact ⟨hch, he, (c1_title_preserved d1c out1c (12/25) hch he).2⟩

lemma chartMatchStep_no_titles (l : List ℕ) :
    ∀ charts f nf, l.foldl chartMatchStep (charts, [], f, nf) = (charts, [], f, nf ++ l) := by
  induction l with
  | nil => intro charts f nf; simp
  | cons i is ih =>
    intro charts f nf
    rw [List.foldl_cons]
    have hstep : chartMatchStep (charts, [], f, nf) i = (charts, [], f, nf ++ [i]) := rfl
    rw [hstep, ih]
    simp

lemma map_range_getD {α β : Type} (l : List α) (d0 : α) (f : α → β) :
    (List.range l.length).map (fun i => f (l.getD i d0)) = l.map f := by
  induction l with
  | nil => rfl
  | cons a as ih =>
    rw [List.length_cons, List.range_succ_eq_map, List.map_cons, List.map_map]
    simp only [Function.comp_def, List.getD_cons_zero, List.getD_cons_succ]
    rw [ih, List.map_cons]

/-- C10: when the input has at least one chart detection but no title
survives the fusion step, title matching returns no match for every chart,
so every fused chart box is expanded with the unmatched ratios
`(rx = 1.10, ry = 1.25)` and clipped to `[0, 1]` (the clipping is part of
`expandBox`), and the returned title list — always the original input title
list — is empty exactly when the input title list is empty. -/
theorem c10_unmatched_charts (d out : AnnotDict) (bs : List Box4) (ss ls : List ℚ)
    (hc : d.chart ≠ []) (hw : chartWbf d = some (bs, ss, ls))
    (ht : (bs.zip (ss.zip ls)).filter (fun r => r.2.2 = 2) = [])
    (h : expandChartBboxes d = some out) :
    out.chart = ((bs.zip (ss.zip ls)).filter (fun r => r.2.2 = 1)).map
      (fun r => ⟨(expandBox (11/10) (5/4) r.1).x1, (expandBox (11/10) (5/4) r.1).y1,
                 (expandBox (11/10) (5/4) r.1).x2, (expandBox (11/10) (5/4) r.1).y2,
                 r.2.1⟩) ∧
    (out.title = [] ↔ d.title = []) := by
  rw [expandChartBboxes, if_neg hc] at h
  simp only [hw, Option.bind_eq_bind, Option.some_bind, Option.pure_def,
    Option.some.injEq] at h
  subst h
  refine ⟨?_, Iff.rfl⟩
  simp only [ht, List.map_nil]
  rw [chartMatchStep_no_titles]
  simp only [List.not_mem_nil, if_false]
  rw [map_range_getD
    (((bs.zip (ss.zip ls)).filter (fun r => decide (r.2.2 = 1))).map (fun r => r.1))
    default (expandBox (11/10) (5/4))]
  rw [List.map_map, List.zip_map', List.map_map]
  rfl

/-- Concrete input for the witness of `c10_unmatched_charts`: one chart,
no tables, no titles. -/
def d10 : AnnotDict := ⟨[], [⟨1/5, 1/5, 3/5, 2/5, 9/10⟩], []⟩

/-- `expand_chart_bboxes` output on `d10`: the chart expanded by
`(1.10, 1.25)`. -/
def out10 : AnnotDict := ⟨[], [⟨9/50, 7/40, 31/50, 17/40, 9/10⟩], []⟩

set_option maxHeartbeats 4000000 in
/-- Witness for `c10_unmatched_charts`. -/
theorem c10_witness :
    out10.chart = ((([⟨1/5, 1/5, 3/5, 2/5⟩] : List Box4).zip
        (([9/10] : List ℚ).zip ([1] : List ℚ))).filter (fun r => r.2.2 = 1)).map
      (fun r => ⟨(expandBox (11/10) (5/4) r.1).x1, (expandBox (11/10) (5/4) r.1).y1,
                 (expandBox (11/10) (5/4) r.1).x2, (expandBox (11/10) (5/4) r.1).y2,
                 r.2.1⟩) ∧
    (out10.title = [] ↔ d10.title = []) := by
  have hc : d10.chart ≠ [] := by simp [d10]
  have hw : chartWbf d10 = some ([⟨1/5, 1/5, 3/5, 2/5⟩], [9/10], [1]) := by
    norm_num [chartWbf, chartFusionItems, detBox, d10,
      weightedBoxesFusion, prefilterBoxes, prefilterOne, boxDataChecks, clamp01,
      bucketize, addToBuckets, sortDesc, insertDesc, buildClusters, clusterStep,
      findMatchingBoxFast, argmaxIdx, qmax, bbIou, recBox,
      listSetNat, sortedInsertNat, mergeCluster, getBiggestBox, mergeLabels, qmean,
      omap, intTrunc,
      List.enum, List.enumFrom, List.zip, List.zipWith, List.filterMap_cons,
      List.range_succ, List.findIdx_cons, List.findIdx_nil, List.findIdx?_cons,
      List.findIdx?_nil,
      show (("max" : String) = "avg") = False from by simp,
      show (("max" : String) = "max") = True from by simp,
      show (("biggest" : String) = "weighted") = False from by simp,
      show (("biggest" : String) = "biggest") = True from by simp]
  have ht : ((([⟨1/5, 1/5, 3/5, 2/5⟩] : List Box4).zip
      (([9/10] : List ℚ).zip ([1] : List ℚ))).filter (fun r => r.2.2 = 2)) = [] := by
    norm_num [List.zip]
  have he : expandChartBboxes d10 = some out10 := by
    rw [expandChartBboxes, if_neg hc]
    simp only [hw, Option.bind_eq_bind, Option.some_bind, Option.pure_def,
      Option.some.injEq]
    norm_num [List.zip, List.zipWith, chartMatchStep, matchWithTitle, proxScore,
      List.range_succ, expandBox, clamp01, out10, d10]
  exact c10_unmatched_charts d10 out10 _ _ _ hc hw ht he

lemma foldl_max_gt_iff (c : ℚ) :
    ∀ (xs : List ℚ) (x : ℚ), xs.foldl max x > c ↔ x > c ∨ ∃ y ∈ xs, y > c := by
  intro xs
  induction xs with
  | nil => simp
  | cons y ys ih =>
    intro x
    rw [List.foldl_cons, ih]
    constructor
    · rintro (h | h)
      · rcases lt_max_iff.mp h with h | h
        · exact Or.inl h
        · exact Or.inr ⟨y, by simp, h⟩
      · obtain ⟨z, hz, hzc⟩ := h
        exact Or.inr ⟨z, by simp [hz], hzc⟩
    · rintro (h | ⟨z, hz, hzc⟩)
      · exact Or.inl (lt_max_iff.mpr (Or.inl h))
      · rcases List.mem_cons.mp hz with rfl | hz
        · exact Or.inl (lt_max_iff.mpr (Or.inr hzc))
        · exact Or.inr ⟨z, hz, hzc⟩

lemma qmax_gt_iff (l : List ℚ) (c : ℚ) (h : l ≠ []) :
    qmax l > c ↔ ∃ x ∈ l, x > c := by
  cases l with
  | nil => exact absurd rfl h
  | cons x xs =>
    rw [qmax, foldl_max_gt_iff]
    constructor
    · rintro (hx | ⟨y, hy, hyc⟩)
      · exact ⟨x, by simp, hx⟩
      · exact ⟨y, by simp [hy], hyc⟩
    · rintro ⟨y, hy, hyc⟩
      rcases List.mem_cons.mp hy with rfl | hy
      · exact Or.inl hyc
      · exact Or.inr ⟨y, hy, hyc⟩

lemma foldl_min_lt_iff (c : ℚ) :
    ∀ (xs : List ℚ) (x : ℚ), xs.foldl min x < c ↔ x < c ∨ ∃ y ∈ xs, y < c := by
  intro xs
  induction xs with
  | nil => simp
  | cons y ys ih =>
    intro x
    rw [List.foldl_cons, ih]
    constructor
    · rintro (h | h)
      · rcases min_lt_iff.mp h with h | h
        · exact Or.inl h
        · exact Or.inr ⟨y, by simp, h⟩
      · obtain ⟨z, hz, hzc⟩ := h
        exact Or.inr ⟨z, by simp [hz], hzc⟩
    · rintro (h | ⟨z, hz, hzc⟩)
      · exact Or.inl (min_lt_iff.mpr (Or.inl h))
      · rcases List.mem_cons.mp hz with rfl | hz
        · exact Or.inl (min_lt_iff.mpr (Or.inr hzc))
        · exact Or.inr ⟨z, hz, hzc⟩

lemma qmin_lt_iff (l : List ℚ) (c : ℚ) (h : l ≠ []) :
    qmin l < c ↔ ∃ x ∈ l, x < c := by
  cases l with
  | nil => exact absurd rfl h
  | cons x xs =>
    rw [qmin, foldl_min_lt_iff]
    constructor
    · rintro (hx | ⟨y, hy, hyc⟩)
      · exact ⟨x, by simp, hx⟩
      · exact ⟨y, by simp [hy], hyc⟩
    · rintro ⟨y, hy, hyc⟩
      rcases List.mem_cons.mp hy with rfl | hy
      · exact Or.inl hyc
      · exact Or.inr ⟨y, hy, hyc⟩

lemma findIdx_map {α β : Type} (f : α → β) (l : List α) (p : β → Bool) :
    (l.map f).findIdx p = l.findIdx (fun a => p (f a)) := by
  induction l with
  | nil => rfl
  | cons a as ih =>
    rw [List.map_cons, List.findIdx_cons, List.findIdx_cons, ih]

lemma filterMap_range_get {α : Type} (l : List α) :
    (List.range l.length).filterMap (fun i => l.get? i) = l := by
  induction l with
  | nil => rfl
  | cons a as ih =>
    rw [List.length_cons, List.range_succ_eq_map, List.filterMap_cons]
    simp only [List.get?_cons_zero, List.filterMap_map]
    rw [show ((fun i => (a :: as).get? i) ∘ Nat.succ) = (fun i => as.get? i) from rfl, ih]

lemma filterMap_range_filter_ne {α : Type} (l : List α) (j : ℕ) :
    ((List.range l.length).filter (fun i => i ≠ j)).filterMap (fun i => l.get? i) =
      l.eraseIdx j := by
  induction l generalizing j with
  | nil => rfl
  | cons a as ih =>
    rw [List.length_cons, List.range_succ_eq_map, List.filter_cons]
    cases j with
    | zero =>
      simp only [decide_eq_true_eq, if_neg (by simp : ¬ (0 : ℕ) ≠ 0)]
      rw [List.filter_map, List.filterMap_map]
      have h1 : ((fun (i : ℕ) => decide (i ≠ 0)) ∘ Nat.succ) = fun _ => true := by
        funext i
        simp
      have h2 : ((fun i => (a :: as).get? i) ∘ Nat.succ) = (fun i => as.get? i) := rfl
      rw [h1, h2, List.filter_true, filterMap_range_get]
      rfl
    | succ j0 =>
      simp only [decide_eq_true_eq, if_pos (by simp : (0 : ℕ) ≠ j0 + 1)]
      rw [List.filterMap_cons]
      simp only [List.get?_cons_zero]
      rw [List.filter_map, List.filterMap_map]
      have h1 : ((fun (i : ℕ) => decide (i ≠ j0 + 1)) ∘ Nat.succ) =
          (fun (i : ℕ) => decide (i ≠ j0)) := by
        funext i
        simp
      have h2 : ((fun i => (a :: as).get? i) ∘ Nat.succ) = (fun i => as.get? i) := rfl
      rw [h1, h2, ih]
      rfl

lemma foldl_range_filter {α β : Type} (l : List α) (d0 : α) (p : α → Bool)
    (g : β → α → β) :
    ∀ b : β,
      ((List.range l.length).filter (fun i => p (l.getD i d0))).foldl
        (fun acc i => g acc (l.getD i d0)) b =
      l.foldl (fun acc a => if p a then g acc a else acc) b := by
  induction l with
  | nil => intro b; rfl
  | cons a as ih =>
    intro b
    have h1 : ((fun i => p ((a :: as).getD i d0)) ∘ Nat.succ) =
        (fun i => p (as.getD i d0)) := by
      funext i
      simp
    have hmapf : ((List.range as.length).map Nat.succ).filter
        (fun i => p ((a :: as).getD i d0)) =
        ((List.range as.length).filter (fun i => p (as.getD i d0))).map Nat.succ := by
      rw [List.filter_map, h1]
    have hfun : (fun (acc : β) (i : ℕ) => g acc ((a :: as).getD (Nat.succ i) d0)) =
        (fun acc i => g acc (as.getD i d0)) := by
      funext acc i
      simp
    rw [List.length_cons, List.range_succ_eq_map, List.filter_cons, hmapf,
      List.foldl_cons]
    simp only [List.getD_cons_zero]
    by_cases hpa : p a = true
    · rw [if_pos hpa, if_pos hpa, List.foldl_cons]
      simp only [List.getD_cons_zero]
      rw [List.foldl_map]
      rw [show (fun (x : β) (y : ℕ) => g x ((a :: as).getD y.succ d0)) =
        (fun acc i => g acc (as.getD i d0)) from hfun]
      exact ih (g b a)
    · rw [if_neg hpa, if_neg hpa, List.foldl_map]
      rw [show (fun (x : β) (y : ℕ) => g x ((a :: as).getD y.succ d0)) =
        (fun acc i => g acc (as.getD i d0)) from hfun]
      exact ih b

lemma filterMap_range_filter {α : Type} (l : List α) (d0 : α) (p : α → Bool) :
    ((List.range l.length).filter (fun i => p (l.getD i d0))).filterMap
      (fun i => l.get? i) = l.filter p := by
  induction l with
  | nil => rfl
  | cons a as ih =>
    have h1 : ((fun i => p ((a :: as).getD i d0)) ∘ Nat.succ) =
        (fun i => p (as.getD i d0)) := by
      funext i
      simp
    have hmapf : ((List.range as.length).map Nat.succ).filter
        (fun i => p ((a :: as).getD i d0)) =
        ((List.range as.length).filter (fun i => p (as.getD i d0))).map Nat.succ := by
      rw [List.filter_map, h1]
    have h2 : ((fun i => (a :: as).get? i) ∘ Nat.succ) = (fun i => as.get? i) := rfl
    rw [List.length_cons, List.range_succ_eq_map, List.filter_cons, hmapf,
      List.filter_cons]
    simp only [List.getD_cons_zero]
    by_cases hpa : p a = true
    · rw [if_pos hpa, if_pos hpa, List.filterMap_cons]
      simp only [List.get?_cons_zero]
      rw [List.filterMap_map, h2, ih]
    · rw [if_neg hpa, if_neg hpa, List.filterMap_map, h2, ih]

lemma getD_map_of_lt {α β : Type} (l : List α) (f : α → β) (i : ℕ)
    (h : i < l.length) (d0 : α) (d1 : β) :
    (l.map f).getD i d1 = f (l.getD i d0) := by
  rw [List.getD_eq_getElem?_getD, List.getD_eq_getElem?_getD, List.getElem?_map,
    List.getElem?_eq_getElem h]
  rfl

/-- C6: `match_with_title` at `iou_th = 0.01` computes exactly the
association the spec describes: all titles with IoU above 0.01 when the
maximum IoU exceeds 0.01; otherwise the single nearest title by the
proximity score when that score is below 0.1; matched titles are merged by
repeated envelope union and removed from the pool; otherwise no match. -/
theorem c6_match_with_title (chart : Box4) (titles : List Box4) :
    matchWithTitle chart titles (1/100) = specMatchWithTitle chart titles := by
  cases titles with
  | nil => rfl
  | cons t0 ts =>
    have hne : (t0 :: ts : List Box4) ≠ [] := by simp
    have hiouiff : qmax ((t0 :: ts).map (fun tb => bbIou tb chart)) > 1/100 ↔
        ∃ tb ∈ t0 :: ts, bbIou tb chart > 1/100 := by
      rw [qmax_gt_iff _ _ (by simp)]
      constructor
      · rintro ⟨x, hx, hxc⟩
        obtain ⟨tb, htb, rfl⟩ := List.mem_map.mp hx
        exact ⟨tb, htb, hxc⟩
      · rintro ⟨tb, htb, hc⟩
        exact ⟨_, List.mem_map.mpr ⟨tb, htb, rfl⟩, hc⟩
    simp only [matchWithTitle, specMatchWithTitle]
    rw [if_neg hne]
    have hMS : (List.range (t0 :: ts).length).filter
          (fun i => decide (((t0 :: ts).map (fun tb => bbIou tb chart)).getD i 0 > 1/100)) =
        (List.range (t0 :: ts).length).filter
          (fun i => decide (bbIou ((t0 :: ts).getD i default) chart > 1/100)) := by
      apply List.filter_congr
      intro i hi
      rw [getD_map_of_lt _ _ i (List.mem_range.mp hi) default 0]
    by_cases hiou : qmax ((t0 :: ts).map (fun tb => bbIou tb chart)) > 1/100
    · rw [if_pos hiou, if_pos (hiouiff.mp hiou)]
      rw [Option.map_some']
      refine congrArg some (Prod.ext ?_ ?_)
      · rw [hMS, foldl_range_filter (t0 :: ts) default
          (fun tb => decide (bbIou tb chart > 1/100)) mergeBoxes chart]
        have hfun : (fun (b tb : Box4) =>
            if decide (bbIou tb chart > 1/100) = true then mergeBoxes b tb else b) =
            (fun (b tb : Box4) => if bbIou tb chart > 1/100 then mergeBoxes b tb else b) := by
          funext b tb
          by_cases h : bbIou tb chart > 1/100 <;> simp [h]
        rw [hfun]
      · have hpred : ∀ i ∈ List.range (t0 :: ts).length,
            (decide (i ∉ (List.range (t0 :: ts).length).filter
              (fun i2 => decide (((t0 :: ts).map (fun tb => bbIou tb chart)).getD i2 0 > 1/100)))) =
            (!(decide (bbIou ((t0 :: ts).getD i default) chart > 1/100))) := by
          intro i hi
          rw [hMS]
          have hlt := List.mem_range.mp hi
          simp only [List.length_cons] at hlt
          simp [List.mem_filter, hi, ← decide_not, not_lt]
          intro hcon
          exact absurd hcon (by omega)
        rw [List.filter_congr hpred, filterMap_range_filter (t0 :: ts) default
          (fun tb => !(decide (bbIou tb chart > 1/100)))]
        have hfun2 : (fun (tb : Box4) => !(decide (bbIou tb chart > 1/100))) =
            (fun (tb : Box4) => decide ¬(bbIou tb chart > 1/100)) := by
          funext tb
          simp [← decide_not, not_le]
        rw [hfun2]
    · have hproxiff : qmin ((t0 :: ts).map (fun tb => proxScore chart tb)) < 1/10 ↔
          ∃ tb ∈ t0 :: ts, proxScore chart tb < 1/10 := by
        rw [qmin_lt_iff _ _ (by simp)]
        constructor
        · rintro ⟨x, hx, hxc⟩
          obtain ⟨tb, htb, rfl⟩ := List.mem_map.mp hx
          exact ⟨tb, htb, hxc⟩
        · rintro ⟨tb, htb, hc⟩
          exact ⟨_, List.mem_map.mpr ⟨tb, htb, rfl⟩, hc⟩
      rw [if_neg hiou, if_neg (fun hex => hiou (hiouiff.mpr hex))]
      by_cases hprox : qmin ((t0 :: ts).map (fun tb => proxScore chart tb)) < 1/10
      · rw [if_pos hprox, if_pos (hproxiff.mp hprox)]
        rw [Option.map_some']
        have hargj : argminIdx ((t0 :: ts).map (fun tb => proxScore chart tb)) =
            (t0 :: ts).findIdx (fun tb =>
              proxScore chart tb = qmin ((t0 :: ts).map (fun u => proxScore chart u))) := by
          rw [argminIdx, findIdx_map]
        refine congrArg some (Prod.ext ?_ ?_)
        · rw [List.foldl_cons, List.foldl_nil, hargj]
        · have hpred : ∀ i ∈ List.range (t0 :: ts).length,
              (decide (i ∉ [argminIdx ((t0 :: ts).map (fun tb => proxScore chart tb))])) =
              (decide (i ≠ argminIdx ((t0 :: ts).map (fun tb => proxScore chart tb)))) := by
            intro i hi
            simp
          rw [List.filter_congr hpred, filterMap_range_filter_ne, hargj]
      · rw [if_neg hprox, if_neg (fun hex => hprox (hproxiff.mpr hex))]
        rfl

lemma mem_insertDesc (key : Rec → ℚ) (a x : Rec) :
    ∀ l : List Rec, x ∈ insertDesc key a l ↔ x = a ∨ x ∈ l := by
  intro l
  induction l with
  | nil => simp [insertDesc]
  | cons b bs ih =>
    rw [insertDesc]
    split
    · simp
    · rw [List.mem_cons, ih, List.mem_cons]
      tauto

lemma mem_sortDesc (key : Rec → ℚ) (x : Rec) :
    ∀ l : List Rec, x ∈ sortDesc key l ↔ x ∈ l := by
  intro l
  induction l with
  | nil => simp [sortDesc]
  | cons a as ih =>
    rw [sortDesc, mem_insertDesc, ih, List.mem_cons]

lemma insertDesc_sorted (key : Rec → ℚ) (a : Rec) :
    ∀ l : List Rec, l.Sorted (fun x y => key y ≤ key x) →
      (insertDesc key a l).Sorted (fun x y => key y ≤ key x) := by
  intro l
  induction l with
  | nil => intro _; simp [insertDesc]
  | cons b bs ih =>
    intro hs
    rw [insertDesc]
    rcases List.sorted_cons.mp hs with ⟨hbs, hs2⟩
    split
    · next hab =>
      refine List.sorted_cons.mpr ⟨?_, hs⟩
      intro y hy
      rcases List.mem_cons.mp hy with rfl | hy
      · exact le_of_lt hab
      · exact le_trans (hbs y hy) (le_of_lt hab)
    · next hab =>
      refine List.sorted_cons.mpr ⟨?_, ih hs2⟩
      intro y hy
      rcases (mem_insertDesc key a y bs).mp hy with rfl | hy
      · exact not_lt.mp hab
      · exact hbs y hy

lemma sortDesc_sorted (key : Rec → ℚ) :
    ∀ l : List Rec, (sortDesc key l).Sorted (fun x y => key y ≤ key x) := by
  intro l
  induction l with
  | nil => simp [sortDesc]
  | cons a as ih => exact insertDesc_sorted key a _ ih

lemma mem_sortedInsertNat (n y : ℕ) :
    ∀ l : List ℕ, y ∈ sortedInsertNat n l ↔ y = n ∨ y ∈ l := by
  intro l
  induction l with
  | nil => simp [sortedInsertNat]
  | cons m ms ih =>
    rw [sortedInsertNat]
    split
    · simp [List.mem_cons]
    · split
      · next hlt heq =>
        subst heq
        simp [List.mem_cons]
      · rw [List.mem_cons, ih, List.mem_cons]
        tauto

lemma sortedInsertNat_sorted (n : ℕ) :
    ∀ l : List ℕ, l.Sorted (· < ·) → (sortedInsertNat n l).Sorted (· < ·) := by
  intro l
  induction l with
  | nil => intro _; simp [sortedInsertNat]
  | cons m ms ih =>
    intro hs
    rcases List.sorted_cons.mp hs with ⟨hms, hs2⟩
    rw [sortedInsertNat]
    split
    · next hnm =>
      refine List.sorted_cons.mpr ⟨?_, hs⟩
      intro y hy
      rcases List.mem_cons.mp hy with rfl | hy
      · exact hnm
      · exact lt_trans hnm (hms y hy)
    · split
      · exact hs
      · next hnm hne =>
        refine List.sorted_cons.mpr ⟨?_, ih hs2⟩
        intro y hy
        rcases (mem_sortedInsertNat n y ms).mp hy with rfl | hy2
        · exact lt_of_le_of_ne (not_lt.mp hnm) (Ne.symm hne)
        · exact hms y hy2

lemma listSetNat_sorted (l : List ℕ) : (listSetNat l).Sorted (· < ·) := by
  rw [listSetNat]
  have h : ∀ (xs : List ℕ) (acc : List ℕ), acc.Sorted (· < ·) →
      (xs.foldl (fun acc2 n => sortedInsertNat n acc2) acc).Sorted (· < ·) := by
    intro xs
    induction xs with
    | nil => intro acc h; exact h
    | cons x xs2 ih =>
      intro acc h
      exact ih _ (sortedInsertNat_sorted x acc h)
  exact h l [] (by simp)

/-- Shape invariant of the greedy clustering: every cluster is either kept
sorted ascending by `list(set(...))` or is a raw two-element pair
`[index, j]`. -/
def ClusterOK (c : List ℕ) : Prop := c.Sorted (· < ·) ∨ c.length ≤ 2

lemma buildClusters_ok (bucket : List Rec) (iouThr : ℚ) :
    ∀ c ∈ buildClusters bucket iouThr, ClusterOK c := by
  rw [buildClusters]
  have h : ∀ (l : List ℕ) (clusters : List (List ℕ)),
      (∀ c ∈ clusters, ClusterOK c) →
      ∀ c ∈ l.foldl (clusterStep bucket iouThr) clusters, ClusterOK c := by
    intro l
    induction l with
    | nil => intro clusters hcl c hc; exact hcl c hc
    | cons j js ih =>
      intro clusters hcl c hc
      refine ih _ ?_ c hc
      intro c2 hc2
      simp only [clusterStep] at hc2
      split at hc2
      · rcases List.mem_append.mp hc2 with h2 | h2
        · exact hcl c2 h2
        · rw [List.mem_singleton] at h2
          subst h2
          exact Or.inl (by simp)
      · split at hc2
        · next ci hfi =>
          rcases List.mem_or_eq_of_mem_set hc2 with h2 | h2
          · exact hcl c2 h2
          · subst h2
            exact Or.inl (listSetNat_sorted _)
        · rcases List.mem_append.mp hc2 with h2 | h2
          · exact hcl c2 h2
          · rw [List.mem_singleton] at h2
            subst h2
            exact Or.inr (by simp)
  intro c hc
  exact h _ [] (by simp) c hc

lemma boxDataChecks_valid (bx1 by1 bx2 by2 : ℚ) (bb : Box4)
    (h : boxDataChecks bx1 by1 bx2 by2 = some bb) : ValidPos bb := by
  rw [boxDataChecks] at h
  generalize hp : (if bx2 < bx1 then (bx2, bx1) else (bx1, bx2)) = p at h
  generalize hq : (if by2 < by1 then (by2, by1) else (by1, by2)) = q at h
  have hpo : p.1 ≤ p.2 := by
    rw [← hp]
    split
    · next h2 => exact le_of_lt h2
    · next h2 => exact not_lt.mp h2
  have hqo : q.1 ≤ q.2 := by
    rw [← hq]
    split
    · next h2 => exact le_of_lt h2
    · next h2 => exact not_lt.mp h2
  split at h
  · exact absurd h (by simp)
  · next harea =>
    rw [Option.some.injEq] at h
    subst h
    have hx : clamp01 p.1 ≤ clamp01 p.2 := clamp01_mono hpo
    have hy : clamp01 q.1 ≤ clamp01 q.2 := clamp01_mono hqo
    have hxne : clamp01 p.1 ≠ clamp01 p.2 := by
      intro heq
      exact harea (by rw [heq]; ring)
    have hyne : clamp01 q.1 ≠ clamp01 q.2 := by
      intro heq
      exact harea (by rw [heq]; ring_nf)
    exact ⟨clamp01_nonneg _, lt_of_le_of_ne hx hxne, clamp01_le_one _,
      clamp01_nonneg _, lt_of_le_of_ne hy hyne, clamp01_le_one _⟩

lemma prefilterOne_mem (t : ℕ) (bs : List Box4) (ss ls : List ℚ) (thr : ℚ) (r : Rec)
    (h : r ∈ prefilterOne t bs ss ls thr) :
    (∃ sc ∈ ss, r.score = sc * 1) ∧ ValidPos (recBox r) := by
  rw [prefilterOne] at h
  obtain ⟨bsl, hmem, hf⟩ := List.mem_filterMap.mp h
  split at hf
  · exact absurd hf (by simp)
  · obtain ⟨bb, hbb, hr⟩ := Option.map_eq_some'.mp hf
    subst hr
    refine ⟨⟨bsl.2.1, (List.of_mem_zip (List.of_mem_zip hmem).2).1, rfl⟩, ?_⟩
    exact boxDataChecks_valid _ _ _ _ bb hbb

lemma foldl_append_mem {α β : Type} (f : α → List β) (l : List α) (x : β) :
    ∀ init : List β, x ∈ l.foldl (fun acc m => acc ++ f m) init →
      x ∈ init ∨ ∃ m ∈ l, x ∈ f m := by
  induction l with
  | nil => intro init h; exact Or.inl h
  | cons m ms ih =>
    intro init h
    rw [List.foldl_cons] at h
    rcases ih (init ++ f m) h with h2 | ⟨m2, hm2, hx2⟩
    · rcases List.mem_append.mp h2 with h3 | h3
      · exact Or.inl h3
      · exact Or.inr ⟨m, by simp, h3⟩
    · exact Or.inr ⟨m2, by simp [hm2], hx2⟩

lemma addToBuckets_mem (k : Option ℚ) (r : Rec) (x : Rec) :
    ∀ (acc : List (Option ℚ × List Rec)) (b : Option ℚ × List Rec),
      b ∈ addToBuckets k r acc → x ∈ b.2 → (∃ b2 ∈ acc, x ∈ b2.2) ∨ x = r := by
  intro acc
  induction acc with
  | nil =>
    intro b hb hx
    rw [addToBuckets] at hb
    rw [List.mem_singleton] at hb
    subst hb
    rw [List.mem_singleton] at hx
    exact Or.inr hx
  | cons hd rest ih =>
    obtain ⟨k1, rs⟩ := hd
    intro b hb hx
    rw [addToBuckets] at hb
    split at hb
    · rcases List.mem_cons.mp hb with heq | hb2
      · subst heq
        rcases List.mem_append.mp hx with h3 | h3
        · exact Or.inl ⟨(k1, rs), by simp, h3⟩
        · rw [List.mem_singleton] at h3
          exact Or.inr h3
      · exact Or.inl ⟨b, by simp [hb2], hx⟩
    · rcases List.mem_cons.mp hb with heq | hb2
      · subst heq
        exact Or.inl ⟨(k1, rs), by simp, hx⟩
      · rcases ih b hb2 hx with ⟨b2, hb3, hx3⟩ | h3
        · exact Or.inl ⟨b2, by simp [hb3], hx3⟩
        · exact Or.inr h3

lemma bucketize_mem (ca : Bool) (rs : List Rec) (b : Option ℚ × List Rec) (x : Rec)
    (hb : b ∈ bucketize ca rs) (hx : x ∈ b.2) : x ∈ rs := by
  rw [bucketize] at hb
  have h : ∀ (l : List Rec) (acc : List (Option ℚ × List Rec)),
      b ∈ l.foldl (fun acc2 r => addToBuckets (if ca then none else some r.lab) r acc2) acc →
      (∃ b2 ∈ acc, x ∈ b2.2) ∨ x ∈ l := by
    intro l
    induction l with
    | nil =>
      intro acc h2
      exact Or.inl ⟨b, h2, hx⟩
    | cons r0 l2 ih =>
      intro acc h2
      rw [List.foldl_cons] at h2
      rcases ih _ h2 with ⟨b2, hb2, hx2⟩ | h3
      · rcases addToBuckets_mem _ r0 x _ b2 hb2 hx2 with ⟨b3, hb3, hx3⟩ | h4
        · exact Or.inl ⟨b3, hb3, hx3⟩
        · exact Or.inr (by simp [h4])
      · exact Or.inr (by simp [h3])
  rcases h rs [] hb with ⟨b2, hb2, _⟩ | h2
  · simp at hb2
  · exact h2

lemma prefilter_bucket (bss : List (List Box4)) (sss lss : List (List ℚ))
    (thr : ℚ) (ca : Bool) (buckets : List (List Rec)) (bucket : List Rec)
    (hpf : prefilterBoxes bss sss lss thr ca = some buckets)
    (hb : bucket ∈ buckets) :
    bucket.Sorted (fun a b => b.score ≤ a.score) ∧
    ∀ r ∈ bucket, (∃ ss ∈ sss, ∃ sc ∈ ss, r.score = sc * 1) ∧ ValidPos (recBox r) := by
  rw [prefilterBoxes] at hpf
  split at hpf
  · exact absurd hpf (by simp)
  · split at hpf
    · exact absurd hpf (by simp)
    · rw [Option.some.injEq] at hpf
      subst hpf
      obtain ⟨b0, hb0, rfl⟩ := List.mem_map.mp hb
      refine ⟨sortDesc_sorted _ _, ?_⟩
      intro r hr
      have hr2 : r ∈ b0.2 := (mem_sortDesc _ _ _).mp hr
      have hr3 := bucketize_mem ca _ b0 r hb0 hr2
      rcases foldl_append_mem _ _ r [] hr3 with h | ⟨m, hm, hmem⟩
      · simp at h
      · have hone := prefilterOne_mem m.1 m.2.1 m.2.2.1 m.2.2.2 thr r hmem
        refine ⟨?_, hone.2⟩
        obtain ⟨sc, hsc, hscore⟩ := hone.1
        have hm2 : m.2 ∈ bss.zip (sss.zip lss) := by
          have hsnd := List.enum_map_snd (bss.zip (sss.zip lss))
          rw [← hsnd]
          exact List.mem_map_of_mem Prod.snd hm
        have hm3 : m.2.2 ∈ sss.zip lss := (List.of_mem_zip hm2).2
        exact ⟨m.2.2.1, (List.of_mem_zip hm3).1, sc, hsc, hscore⟩

lemma foldl_max_of_le (c0 : ℚ) :
    ∀ cs : List ℚ, (∀ y ∈ cs, y ≤ c0) → cs.foldl max c0 = c0 := by
  intro cs
  induction cs with
  | nil => intro _; rfl
  | cons y ys ih =>
    intro h
    rw [List.foldl_cons, max_eq_left (h y (by simp))]
    exact ih (fun z hz => h z (by simp [hz]))

lemma argmaxIdx_desc (confs : List ℚ) (hs : confs.Sorted (fun a b => b ≤ a))
    (hne : confs ≠ []) : argmaxIdx confs = 0 := by
  cases confs with
  | nil => exact absurd rfl hne
  | cons c0 cs =>
    have hmax : qmax (c0 :: cs) = c0 :=
      foldl_max_of_le c0 cs (List.sorted_cons.mp hs).1
    rw [argmaxIdx, List.findIdx_cons, hmax]
    simp

lemma map_fst_zip_filter (labels : List ℚ) :
    ∀ confs : List ℚ, labels.length = confs.length →
      ((labels.zip confs).filter (fun p => decide (p.1 ≠ 2))).map Prod.fst =
        labels.filter (fun x => decide (x ≠ 2)) := by
  induction labels with
  | nil => intro confs h; rfl
  | cons a as ih =>
    intro confs h
    cases confs with
    | nil => simp at h
    | cons c cs =>
      rw [List.zip_cons_cons, List.filter_cons, List.filter_cons]
      by_cases ha : a = 2
      · rw [if_neg (by simp [ha]), if_neg (by simp [ha])]
        exact ih cs (by simpa using h)
      · rw [if_pos (by simp [ha]), if_pos (by simp [ha]), List.map_cons]
        rw [ih cs (by simpa using h)]

lemma sorted_get?_rel (bucket : List Rec)
    (hbs : bucket.Sorted (fun a b => b.score ≤ a.score)) (i j : ℕ) (hij : i < j)
    (x y : Rec) (hx : bucket.get? i = some x) (hy : bucket.get? j = some y) :
    y.score ≤ x.score := by
  rw [List.get?_eq_some] at hx hy
  obtain ⟨hi, rfl⟩ := hx
  obtain ⟨hj, rfl⟩ := hy
  exact List.pairwise_iff_get.mp hbs ⟨i, hi⟩ ⟨j, hj⟩ hij

lemma members_scores_sorted (bucket : List Rec)
    (hbs : bucket.Sorted (fun a b => b.score ≤ a.score)) (c : List ℕ)
    (hcs : c.Sorted (· < ·)) :
    ((c.filterMap (fun i => bucket.get? i)).map Rec.score).Sorted (fun a b => b ≤ a) := by
  rw [List.Sorted, List.pairwise_map, List.pairwise_filterMap]
  refine hcs.imp_of_mem ?_
  intro i j _ _ hij
  intro x hx y hy
  simp only [Option.mem_def] at hx hy
  exact sorted_get?_rel bucket hbs i j hij x y hx hy

lemma argmaxIdx_singleton (z : ℚ) : argmaxIdx [z] = 0 := by
  rw [argmaxIdx, qmax]
  simp [List.findIdx_cons]

lemma mergeLabels_eq_spec (labels confs : List ℚ)
    (hlen : labels.length = confs.length)
    (h2 : ∀ cf ∈ confs, cf ≠ 2)
    (hstruct : confs.Sorted (fun a b => b ≤ a) ∨ labels.length ≤ 2)
    (l : ℚ) (h : mergeLabels labels confs = some l) :
    specMergeLabel labels confs = some l := by
  cases labels with
  | nil => exact absurd h (by rw [mergeLabels]; simp)
  | cons l0 rest =>
    rw [mergeLabels] at h
    rw [specMergeLabel]
    split at h
    · next hall => rw [if_pos hall]; exact h
    · next hall =>
      rw [if_neg hall]
      have hfc : confs.filter (fun cf => decide (cf ≠ 2)) = confs :=
        List.filter_eq_self.mpr (fun a ha => by simpa using h2 a ha)
      rw [hfc] at h
      split at h
      · exact absurd h (by simp)
      · next hcne =>
        have hfst : ((( l0 :: rest).zip confs).filter
            (fun p => decide (p.1 ≠ 2))).map Prod.fst =
            (l0 :: rest).filter (fun x => decide (x ≠ 2)) :=
          map_fst_zip_filter (l0 :: rest) confs hlen
        rcases hstruct with hsorted | hshort
        · have hcn : confs ≠ [] := by
            intro hc
            rw [hc] at hlen
            simp at hlen
          rw [argmaxIdx_desc confs hsorted hcn] at h
          have hsub : (((l0 :: rest).zip confs).filter (fun p => decide (p.1 ≠ 2))).map
              Prod.snd |>.Sublist confs := by
            have hs1 := (List.filter_sublist ((l0 :: rest).zip confs)
              (p := fun p => decide (p.1 ≠ 2))).map Prod.snd
            rwa [List.map_snd_zip _ _ hlen.ge] at hs1
          have hsorted2 : ((((l0 :: rest).zip confs).filter
              (fun p => decide (p.1 ≠ 2))).map Prod.snd).Sorted (fun a b => b ≤ a) :=
            List.Pairwise.sublist hsub hsorted
          have hnt : (((l0 :: rest).zip confs).filter (fun p => decide (p.1 ≠ 2))) ≠ [] := by
            intro hc
            rw [hc] at hfst
            simp only [List.map_nil] at hfst
            rw [← hfst] at h
            simp at h
          rw [argmaxIdx_desc _ hsorted2 (by simpa using hnt)]
          rw [← List.get?_map, hfst]
          exact h
        · have hrest : ∃ b, rest = [b] := by
            cases rest with
            | nil => exact absurd (by simp) hall
            | cons b rs =>
              cases rs with
              | nil => exact ⟨b, rfl⟩
              | cons b2 rs2 => simp at hshort
          obtain ⟨b, rfl⟩ := hrest
          have hcf : ∃ x y, confs = [x, y] := by
            cases confs with
            | nil => simp at hlen
            | cons x cs =>
              cases cs with
              | nil => simp at hlen
              | cons y cs2 =>
                cases cs2 with
                | nil => exact ⟨x, y, rfl⟩
                | cons z cs3 => simp at hlen
          obtain ⟨x, y, rfl⟩ := hcf
          have hbne : ¬ b = l0 := by
            intro hc
            exact hall (by simp [hc])
          have hxne : x ≠ 2 := h2 x (by simp)
          have hyne : y ≠ 2 := h2 y (by simp)
          by_cases hxy : y ≤ x
          · have hidx : argmaxIdx [x, y] = 0 := by
              rw [argmaxIdx, qmax, List.foldl_cons, List.foldl_nil,
                max_eq_left hxy, List.findIdx_cons]
              simp
            rw [hidx] at h
            by_cases hl0 : l0 = 2
            · have hb2 : ¬ b = 2 := by
                rw [hl0] at hbne
                exact hbne
              rw [List.zip_cons_cons, List.zip_cons_cons, List.zip_nil_right]
              rw [List.filter_cons, if_neg (by simp [hl0]), List.filter_cons,
                if_pos (by simpa using hb2), List.filter_nil]
              rw [List.filter_cons, if_neg (by simp [hl0]), List.filter_cons,
                if_pos (by simpa using hb2), List.filter_nil] at h
              rw [show ([((b : ℚ), (y : ℚ))].map Prod.snd) = [y] from rfl,
                argmaxIdx_singleton]
              simpa using h
            · by_cases hb2 : b = 2
              · rw [List.zip_cons_cons, List.zip_cons_cons, List.zip_nil_right]
                rw [List.filter_cons, if_pos (by simpa using hl0), List.filter_cons,
                  if_neg (by simp [hb2]), List.filter_nil]
                rw [List.filter_cons, if_pos (by simpa using hl0), List.filter_cons,
                  if_neg (by simp [hb2]), List.filter_nil] at h
                rw [show ([((l0 : ℚ), (x : ℚ))].map Prod.snd) = [x] from rfl,
                  argmaxIdx_singleton]
                simpa using h
              · rw [List.zip_cons_cons, List.zip_cons_cons, List.zip_nil_right]
                rw [List.filter_cons, if_pos (by simpa using hl0), List.filter_cons,
                  if_pos (by simpa using hb2), List.filter_nil]
                rw [List.filter_cons, if_pos (by simpa using hl0), List.filter_cons,
                  if_pos (by simpa using hb2), List.filter_nil] at h
                rw [show ([(l0, x), (b, y)].map Prod.snd) = [x, y] from rfl, hidx]
                simpa using h
          · have hxyy : ¬ x = y := by
              intro hc
              exact hxy (le_of_eq hc.symm)
            have hidx : argmaxIdx [x, y] = 1 := by
              rw [argmaxIdx, qmax, List.foldl_cons, List.foldl_nil,
                max_eq_right (le_of_lt (not_le.mp hxy)), List.findIdx_cons]
              simp [hxyy, List.findIdx_cons]
            rw [hidx] at h
            by_cases hl0 : l0 = 2
            · rw [List.filter_cons, if_neg (by simp [hl0]), List.filter_cons] at h
              have hb2 : ¬ b = 2 := by
                rw [hl0] at hbne
                exact hbne
              rw [if_pos (by simpa using hb2), List.filter_nil] at h
              simp at h
            · by_cases hb2 : b = 2
              · rw [List.filter_cons, if_pos (by simpa using hl0), List.filter_cons,
                  if_neg (by simp [hb2]), List.filter_nil] at h
                simp at h
              · rw [List.zip_cons_cons, List.zip_cons_cons, List.zip_nil_right]
                rw [List.filter_cons, if_pos (by simpa using hl0), List.filter_cons,
                  if_pos (by simpa using hb2), List.filter_nil]
                rw [List.filter_cons, if_pos (by simpa using hl0), List.filter_cons,
                  if_pos (by simpa using hb2), List.filter_nil] at h
                rw [show ([(l0, x), (b, y)].map Prod.snd) = [x, y] from rfl, hidx]
                simpa using h

/-- C2: for every cluster merged by the WBF engine (either merge policy,
on buckets produced by `prefilter_boxes` with the data model's confidence
bound `conf ≤ 1`), the merged label is the shared label when all members
agree, and otherwise the label of the highest-confidence member after
excluding members labeled `Title` (class 2), ties broken by array order. -/
theorem c2_cluster_merge_label
    (bss : List (List Box4)) (sss lss : List (List ℚ)) (skipThr iouThr : ℚ) (ca : Bool)
    (buckets : List (List Rec)) (bucket : List Rec) (c : List ℕ)
    (mt ct : String) (n : ℕ) (r : Rec)
    (hsc1 : ∀ ss ∈ sss, ∀ sc ∈ ss, sc ≤ 1)
    (hpf : prefilterBoxes bss sss lss skipThr ca = some buckets)
    (hb : bucket ∈ buckets)
    (hc : c ∈ buildClusters bucket iouThr)
    (hm : mergeCluster mt ct n bucket c = some r) :
    specMergeLabel ((c.filterMap (fun i => bucket.get? i)).map Rec.lab)
      ((c.filterMap (fun i => bucket.get? i)).map Rec.score) = some r.lab := by
  obtain ⟨hbs, hprop⟩ := prefilter_bucket bss sss lss skipThr ca buckets bucket hpf hb
  rw [mergeCluster] at hm
  obtain ⟨b, hbm, hr⟩ := Option.map_eq_some'.mp hm
  have hlab : r.lab = b.lab := by
    split at hr <;> (subst hr; rfl)
  have hml : mergeLabels ((c.filterMap (fun i => bucket.get? i)).map Rec.lab)
      ((c.filterMap (fun i => bucket.get? i)).map Rec.score) = some b.lab := by
    split at hbm
    · rw [getWeightedBox] at hbm
      obtain ⟨lab0, hml0, hb0⟩ := Option.map_eq_some'.mp hbm
      subst hb0
      exact hml0
    · rw [getBiggestBox.eq_def] at hbm
      split at hbm
      · exact absurd hbm (by simp)
      · obtain ⟨lab0, hml0, hb0⟩ := Option.map_eq_some'.mp hbm
        subst hb0
        exact hml0
  rw [hlab]
  refine mergeLabels_eq_spec _ _ (by simp) ?_ ?_ _ hml
  · intro cf hcf
    obtain ⟨m, hmm, rfl⟩ := List.mem_map.mp hcf
    have hmb : m ∈ bucket := by
      obtain ⟨i, _, hget⟩ := List.mem_filterMap.mp hmm
      exact List.get?_mem hget
    obtain ⟨⟨ss, hss, sc, hsc, hscore⟩, _⟩ := hprop m hmb
    have hle : sc ≤ 1 := hsc1 ss hss sc hsc
    rw [hscore, mul_one]
    intro hcon
    rw [hcon] at hle
    norm_num at hle
  · rcases buildClusters_ok bucket iouThr c hc with hsorted | hlen2
    · exact Or.inl (members_scores_sorted bucket hbs c hsorted)
    · right
      rw [List.length_map]
      exact le_trans (List.length_filterMap_le _ _) hlen2

/-- Concrete class-agnostic bucket for the witness of
`c2_cluster_merge_label`: a title (label 2, conf 0.9) and a table
(label 0, conf 0.5) on the same box. -/
def bucket2c : List Rec :=
  [⟨2, 9/10, 1, 0, 1/10, 1/10, 1/2, 1/2⟩, ⟨0, 1/2, 1, 1, 1/10, 1/10, 1/2, 1/2⟩]

/-- The merged record of the witness cluster. -/
def rec2c : Rec := ⟨0, 9/10, 2, -1, 1/10, 1/10, 1/2, 1/2⟩

/-- Witness for `c2_cluster_merge_label`: the mixed cluster merges to the
label of the highest-confidence non-title member (label 0). -/
theorem c2_witness :
    specMergeLabel ((([0, 1] : List ℕ).filterMap (fun i => bucket2c.get? i)).map Rec.lab)
      ((([0, 1] : List ℕ).filterMap (fun i => bucket2c.get? i)).map Rec.score) =
      some rec2c.lab := by
  have hsc1 : ∀ ss ∈ [[(9 : ℚ)/10], [(1 : ℚ)/2]], ∀ sc ∈ ss, sc ≤ 1 := by
    intro ss hss sc hsc
    rcases List.mem_cons.mp hss with rfl | hss2
    · rw [List.mem_singleton] at hsc
      rw [hsc]
      norm_num
    · rcases List.mem_cons.mp hss2 with rfl | h3
      · rw [List.mem_singleton] at hsc
        rw [hsc]
        norm_num
      · simp at h3
  have hpf : prefilterBoxes [[⟨1/10, 1/10, 1/2, 1/2⟩], [⟨1/10, 1/10, 1/2, 1/2⟩]]
      [[9/10], [1/2]] [[2], [0]] 0 true = some [bucket2c] := by
    norm_num [prefilterBoxes, prefilterOne, boxDataChecks, clamp01, bucketize,
      addToBuckets, sortDesc, insertDesc, intTrunc, bucket2c,
      List.enum, List.enumFrom, List.zip, List.zipWith, List.filterMap_cons]
  have hbuild : buildClusters bucket2c (1/2) = [[0, 1]] := by
    norm_num [buildClusters, clusterStep, findMatchingBoxFast, argmaxIdx, qmax,
      bbIou, recBox, listSetNat, sortedInsertNat, bucket2c, List.range_succ,
      List.findIdx_cons, List.findIdx_nil, List.findIdx?_cons, List.findIdx?_nil,
      List.filterMap_cons]
  have hm : mergeCluster "biggest" "max" 2 bucket2c [0, 1] = some rec2c := by
    norm_num [mergeCluster, getBiggestBox, mergeLabels, argmaxIdx, qmax, qmean,
      bucket2c, rec2c, List.filterMap_cons, List.getElem?_cons_zero,
      List.getElem?_cons_succ, List.get?_eq_getElem?, List.findIdx_cons,
      show (("biggest" : String) = "weighted") = False from by simp,
      show (("max" : String) = "max") = True from by simp]
    simp
  exact c2_cluster_merge_label
    [[⟨1/10, 1/10, 1/2, 1/2⟩], [⟨1/10, 1/10, 1/2, 1/2⟩]] [[9/10], [1/2]] [[2], [0]]
    0 (1/2) true [bucket2c] bucket2c [0, 1] "biggest" "max" 2 rec2c
    hsc1 hpf (by simp) (by rw [hbuild]; simp) hm

lemma mergeBoxes_valid (b1 b2 : Box4) (h1 : ValidPos b1) (h2 : ValidPos b2) :
    ValidPos (mergeBoxes b1 b2) := by
  obtain ⟨a1, a2, a3, a4, a5, a6⟩ := h1
  obtain ⟨c1, c2, c3, c4, c5, c6⟩ := h2
  refine ⟨le_min a1 c1, ?_, max_le a3 c3, le_min a4 c4, ?_, max_le a6 c6⟩
  · exact lt_of_le_of_lt (min_le_left _ _) (lt_of_lt_of_le a2 (le_max_left _ _))
  · exact lt_of_le_of_lt (min_le_left _ _) (lt_of_lt_of_le a5 (le_max_left _ _))

lemma expandBox_valid (rx ry : ℚ) (hrx : 1 ≤ rx) (hry : 1 ≤ ry) (b : Box4)
    (h : ValidPos b) : ValidPos (expandBox rx ry b) := by
  obtain ⟨a1, a2, a3, a4, a5, a6⟩ := h
  have hdw : 0 ≤ (b.x2 - b.x1) / 2 * (rx - 1) := by
    apply mul_nonneg
    · linarith
    · linarith
  have hdh : 0 ≤ (b.y2 - b.y1) / 2 * (ry - 1) := by
    apply mul_nonneg
    · linarith
    · linarith
  have hx1 : clamp01 (b.x1 - (b.x2 - b.x1) / 2 * (rx - 1)) ≤ b.x1 := by
    calc clamp01 (b.x1 - (b.x2 - b.x1) / 2 * (rx - 1)) ≤ clamp01 b.x1 :=
          clamp01_mono (by linarith)
      _ = b.x1 := clamp01_eq_self b.x1 a1 (le_trans (le_of_lt a2) a3)
  have hx2 : b.x2 ≤ clamp01 (b.x2 + (b.x2 - b.x1) / 2 * (rx - 1)) := by
    calc b.x2 = clamp01 b.x2 :=
          (clamp01_eq_self b.x2 (le_trans a1 (le_of_lt a2)) a3).symm
      _ ≤ clamp01 (b.x2 + (b.x2 - b.x1) / 2 * (rx - 1)) := clamp01_mono (by linarith)
  have hy1 : clamp01 (b.y1 - (b.y2 - b.y1) / 2 * (ry - 1)) ≤ b.y1 := by
    calc clamp01 (b.y1 - (b.y2 - b.y1) / 2 * (ry - 1)) ≤ clamp01 b.y1 :=
          clamp01_mono (by linarith)
      _ = b.y1 := clamp01_eq_self b.y1 a4 (le_trans (le_of_lt a5) a6)
  have hy2 : b.y2 ≤ clamp01 (b.y2 + (b.y2 - b.y1) / 2 * (ry - 1)) := by
    calc b.y2 = clamp01 b.y2 :=
          (clamp01_eq_self b.y2 (le_trans a4 (le_of_lt a5)) a6).symm
      _ ≤ clamp01 (b.y2 + (b.y2 - b.y1) / 2 * (ry - 1)) := clamp01_mono (by linarith)
  exact ⟨clamp01_nonneg _, lt_of_le_of_lt hx1 (lt_of_lt_of_le a2 hx2), clamp01_le_one _,
    clamp01_nonneg _, lt_of_le_of_lt hy1 (lt_of_lt_of_le a5 hy2), clamp01_le_one _⟩

lemma foldl_min_le_init (f : Rec → ℚ) :
    ∀ (l : List Rec) (init : ℚ), l.foldl (fun a b => min a (f b)) init ≤ init := by
  intro l
  induction l with
  | nil => intro init; exact le_refl _
  | cons b bs ih =>
    intro init
    rw [List.foldl_cons]
    exact le_trans (ih _) (min_le_left _ _)

lemma le_foldl_min (f : Rec → ℚ) (c : ℚ) :
    ∀ (l : List Rec) (init : ℚ), c ≤ init → (∀ b ∈ l, c ≤ f b) →
      c ≤ l.foldl (fun a b => min a (f b)) init := by
  intro l
  induction l with
  | nil => intro init h _; exact h
  | cons b bs ih =>
    intro init h hall
    rw [List.foldl_cons]
    exact ih _ (le_min h (hall b (by simp))) (fun b2 hb2 => hall b2 (by simp [hb2]))

lemma init_le_foldl_max (f : Rec → ℚ) :
    ∀ (l : List Rec) (init : ℚ), init ≤ l.foldl (fun a b => max a (f b)) init := by
  intro l
  induction l with
  | nil => intro init; exact le_refl _
  | cons b bs ih =>
    intro init
    rw [List.foldl_cons]
    exact le_trans (le_max_left _ _) (ih _)

lemma foldl_max_le (f : Rec → ℚ) (c : ℚ) :
    ∀ (l : List Rec) (init : ℚ), init ≤ c → (∀ b ∈ l, f b ≤ c) →
      l.foldl (fun a b => max a (f b)) init ≤ c := by
  intro l
  induction l with
  | nil => intro init h _; exact h
  | cons b bs ih =>
    intro init h hall
    rw [List.foldl_cons]
    exact ih _ (max_le h (hall b (by simp))) (fun b2 hb2 => hall b2 (by simp [hb2]))

lemma getBiggestBox_valid (boxes : List Rec) (ct : String) (r : Rec)
    (h : getBiggestBox boxes ct = some r)
    (hv : ∀ m ∈ boxes, ValidPos (recBox m)) : ValidPos (recBox r) := by
  rw [getBiggestBox.eq_def] at h
  split at h
  · exact absurd h (by simp)
  · next b0 rest =>
    obtain ⟨lab0, _, hr⟩ := Option.map_eq_some'.mp h
    subst hr
    have hb0 := hv b0 (by simp)
    obtain ⟨a1, a2, a3, a4, a5, a6⟩ := hb0
    have hx1le : (b0 :: rest).foldl (fun a b => min a b.x1) b0.x1 ≤ b0.x1 :=
      foldl_min_le_init Rec.x1 _ _
    have hx1ge : 0 ≤ (b0 :: rest).foldl (fun a b => min a b.x1) b0.x1 :=
      le_foldl_min Rec.x1 0 _ _ a1 (fun m hm => (hv m hm).1)
    have hy1le : (b0 :: rest).foldl (fun a b => min a b.y1) b0.y1 ≤ b0.y1 :=
      foldl_min_le_init Rec.y1 _ _
    have hy1ge : 0 ≤ (b0 :: rest).foldl (fun a b => min a b.y1) b0.y1 :=
      le_foldl_min Rec.y1 0 _ _ a4 (fun m hm => (hv m hm).2.2.2.1)
    have hx2ge : b0.x2 ≤ (b0 :: rest).foldl (fun a b => max a b.x2) b0.x2 :=
      init_le_foldl_max Rec.x2 _ _
    have hx2le : (b0 :: rest).foldl (fun a b => max a b.x2) b0.x2 ≤ 1 :=
      foldl_max_le Rec.x2 1 _ _ a3 (fun m hm => (hv m hm).2.2.1)
    have hy2ge : b0.y2 ≤ (b0 :: rest).foldl (fun a b => max a b.y2) b0.y2 :=
      init_le_foldl_max Rec.y2 _ _
    have hy2le : (b0 :: rest).foldl (fun a b => max a b.y2) b0.y2 ≤ 1 :=
      foldl_max_le Rec.y2 1 _ _ a6 (fun m hm => (hv m hm).2.2.2.2.2)
    exact ⟨hx1ge, lt_of_le_of_lt hx1le (lt_of_lt_of_le a2 hx2ge), hx2le,
      hy1ge, lt_of_le_of_lt hy1le (lt_of_lt_of_le a5 hy2ge), hy2le⟩

lemma omap_mem {α β : Type} (f : α → Option β) :
    ∀ (l : List α) (res : List β), omap f l = some res →
      ∀ r ∈ res, ∃ a ∈ l, f a = some r := by
  intro l
  induction l with
  | nil =>
    intro res h r hr
    rw [omap] at h
    rw [Option.some.injEq] at h
    subst h
    simp at hr
  | cons a as ih =>
    intro res h r hr
    rw [omap] at h
    cases hfa : f a with
    | none => rw [hfa] at h; simp at h
    | some b =>
      rw [hfa] at h
      cases hrest : omap f as with
      | none => rw [hrest] at h; simp at h
      | some bs =>
        rw [hrest] at h
        simp only [Option.bind_eq_bind, Option.some_bind, Option.pure_def,
          Option.some.injEq] at h
        subst h
        rcases List.mem_cons.mp hr with rfl | hr2
        · exact ⟨a, by simp, hfa⟩
        · obtain ⟨a2, ha2, hfa2⟩ := ih bs hrest r hr2
          exact ⟨a2, by simp [ha2], hfa2⟩

lemma mergeCluster_biggest_valid (ct : String) (n : ℕ) (bucket : List Rec)
    (c : List ℕ) (r : Rec) (h : mergeCluster "biggest" ct n bucket c = some r)
    (hv : ∀ m ∈ bucket, ValidPos (recBox m)) : ValidPos (recBox r) := by
  rw [mergeCluster] at h
  obtain ⟨b, hb, hr⟩ := Option.map_eq_some'.mp h
  rw [if_neg (by simp : ¬ ("biggest" : String) = "weighted")] at hb
  have hbv : ValidPos (recBox b) := by
    refine getBiggestBox_valid _ ct b hb ?_
    intro m hm
    obtain ⟨i, _, hget⟩ := List.mem_filterMap.mp hm
    exact hv m (List.get?_mem hget)
  split at hr <;> (subst hr; exact hbv)

lemma wbf_biggest_valid (bss : List (List Box4)) (sss lss : List (List ℚ))
    (iouThr skipThr : ℚ) (ct : String) (ca : Bool)
    (boxes : List Box4) (scores labs : List ℚ)
    (h : weightedBoxesFusion bss sss lss iouThr skipThr ct "biggest" ca =
      some (boxes, scores, labs)) :
    ∀ bx ∈ boxes, ValidPos bx := by
  rw [weightedBoxesFusion] at h
  split at h
  · exact absurd h (by simp)
  · split at h
    · next hcond => simp at hcond
    · cases hpfe : prefilterBoxes bss sss lss skipThr ca with
      | none => rw [hpfe] at h; simp at h
      | some buckets =>
        rw [hpfe] at h
        simp only [Option.bind_eq_bind, Option.some_bind] at h
        split at h
        · rw [Option.some.injEq] at h
          have hboxes : ([] : List Box4) = boxes := (Prod.ext_iff.mp h).1
          rw [← hboxes]
          simp
        · cases homap : omap (fun bucket => omap
              (mergeCluster "biggest" ct bss.length bucket)
              (buildClusters bucket iouThr)) buckets with
          | none => rw [homap] at h; simp at h
          | some merged =>
            rw [homap] at h
            simp only [Option.bind_eq_bind, Option.some_bind, Option.pure_def,
              Option.some.injEq] at h
            intro bx hbx
            have hboxes : boxes = (sortDesc Rec.score merged.flatten).map recBox :=
              (Prod.ext_iff.mp h).1.symm
            rw [hboxes] at hbx
            obtain ⟨r, hr, rfl⟩ := List.mem_map.mp hbx
            have hr2 : r ∈ merged.flatten := (mem_sortDesc _ _ _).mp hr
            obtain ⟨part, hpart, hrpart⟩ := List.mem_flatten.mp hr2
            obtain ⟨bucket, hbucket, hparteq⟩ := omap_mem _ buckets merged homap part hpart
            obtain ⟨c, _, hmc⟩ := omap_mem _ _ part hparteq r hrpart
            refine mergeCluster_biggest_valid ct bss.length bucket c r hmc ?_
            intro m hm
            exact ((prefilter_bucket bss sss lss skipThr ca buckets bucket hpfe
              hbucket).2 m hm).2

lemma getD_mem {α : Type} [Inhabited α] (l : List α) (i : ℕ) (h : i < l.length) :
    l.getD i default ∈ l := by
  rw [List.getD_eq_getElem l default h]
  exact List.getElem_mem h

lemma qmin_mem (l : List ℚ) (h : l ≠ []) : qmin l ∈ l := by
  cases l with
  | nil => exact absurd rfl h
  | cons x xs =>
    rw [qmin]
    clear h
    induction xs generalizing x with
    | nil => simp
    | cons y ys ih =>
      rw [List.foldl_cons]
      rcases List.mem_cons.mp (ih (min x y)) with h2 | h2
      · rcases min_cases x y with ⟨hm, _⟩ | ⟨hm, _⟩
        · exact List.mem_cons.mpr (Or.inl (by rw [h2, hm]))
        · exact List.mem_cons.mpr (Or.inr (by rw [h2, hm]; simp))
      · exact List.mem_cons.mpr (Or.inr (by simp [h2]))

lemma matchWithTitle_pool_sub (chart : Box4) (titles : List Box4) (iouTh : ℚ)
    (nb : Box4) (nts : List Box4) (h : matchWithTitle chart titles iouTh = some (nb, nts)) :
    ∀ t ∈ nts, t ∈ titles := by
  simp only [matchWithTitle] at h
  split at h
  · exact absurd h (by simp)
  · obtain ⟨ms, _, hf⟩ := Option.map_eq_some'.mp h
    have hnts : nts = ((List.range titles.length).filter
        (fun i => decide (i ∉ ms))).filterMap (fun i => titles.get? i) :=
      (Prod.ext_iff.mp hf).2.symm
    intro t ht
    rw [hnts] at ht
    obtain ⟨i, _, hget⟩ := List.mem_filterMap.mp ht
    exact List.get?_mem hget

lemma foldl_mergeBoxes_valid (titles : List Box4) (hv : ∀ t ∈ titles, ValidPos t) :
    ∀ (ms : List ℕ), (∀ i ∈ ms, i < titles.length) → ∀ acc : Box4, ValidPos acc →
      ValidPos (ms.foldl (fun b i => mergeBoxes b (titles.getD i default)) acc) := by
  intro ms
  induction ms with
  | nil => intro _ acc h; exact h
  | cons i is ih =>
    intro hms acc h
    rw [List.foldl_cons]
    refine ih (fun j hj => hms j (by simp [hj])) _
      (mergeBoxes_valid _ _ h (hv _ (getD_mem titles i (hms i (by simp)))))

lemma matchWithTitle_valid (chart : Box4) (titles : List Box4) (iouTh : ℚ)
    (nb : Box4) (nts : List Box4)
    (hc : ValidPos chart) (hv : ∀ t ∈ titles, ValidPos t)
    (h : matchWithTitle chart titles iouTh = some (nb, nts)) : ValidPos nb := by
  simp only [matchWithTitle] at h
  split at h
  · exact absurd h (by simp)
  · next hne =>
    obtain ⟨ms, hms, hf⟩ := Option.map_eq_some'.mp h
    have hnb : nb = ms.foldl (fun b i => mergeBoxes b (titles.getD i default)) chart :=
      (Prod.ext_iff.mp hf).1.symm
    have hmsr : ∀ i ∈ ms, i < titles.length := by
      split at hms
      · rw [Option.some.injEq] at hms
        subst hms
        intro i hi
        exact List.mem_range.mp (List.mem_filter.mp hi).1
      · split at hms
        · rw [Option.some.injEq] at hms
          subst hms
          intro i hi
          rw [List.mem_singleton] at hi
          subst hi
          have hdne : titles.map (fun tb => proxScore chart tb) ≠ [] := by
            simp [hne]
          have hq := qmin_mem _ hdne
          rw [argminIdx]
          have hlt := List.findIdx_lt_length_of_exists
            (p := fun v => decide (v = qmin (titles.map (fun tb => proxScore chart tb))))
            ⟨_, hq, by simp⟩
          simpa using hlt
        · exact absurd hms (by simp)
    rw [hnb]
    exact foldl_mergeBoxes_valid titles hv ms hmsr chart hc

lemma chartMatchStep_length (st : List Box4 × List Box4 × List ℕ × List ℕ) (i : ℕ) :
    (chartMatchStep st i).1.length = st.1.length := by
  rw [chartMatchStep]
  split
  · simp
  · rfl

lemma chartLoop_length (l : List ℕ) :
    ∀ st, (l.foldl chartMatchStep st).1.length = st.1.length := by
  induction l with
  | nil => intro st; rfl
  | cons i is ih =>
    intro st
    rw [List.foldl_cons, ih, chartMatchStep_length]

lemma chartLoop_valid (l : List ℕ) :
    ∀ st : List Box4 × List Box4 × List ℕ × List ℕ,
      (∀ cb ∈ st.1, ValidPos cb) → (∀ t ∈ st.2.1, ValidPos t) →
      (∀ cb ∈ (l.foldl chartMatchStep st).1, ValidPos cb) ∧
      (∀ t ∈ (l.foldl chartMatchStep st).2.1, ValidPos t) := by
  induction l with
  | nil => intro st h1 h2; exact ⟨h1, h2⟩
  | cons i is ih =>
    intro st h1 h2
    rw [List.foldl_cons]
    cases hmt : matchWithTitle (st.1.getD i default) st.2.1 (1/100) with
    | none =>
      have hstep : chartMatchStep st i = (st.1, st.2.1, st.2.2.1, st.2.2.2 ++ [i]) := by
        rw [chartMatchStep, hmt]
      rw [hstep]
      exact ih _ h1 h2
    | some m =>
      have hstep : chartMatchStep st i =
          (st.1.set i m.1, m.2, st.2.2.1 ++ [i], st.2.2.2) := by
        rw [chartMatchStep, hmt]
      rw [hstep]
      refine ih _ ?_ ?_
      · intro cb hcb
        rcases List.mem_or_eq_of_mem_set hcb with h3 | h3
        · exact h1 cb h3
        · subst h3
          by_cases hi : i < st.1.length
          · exact matchWithTitle_valid _ _ _ _ _ (h1 _ (getD_mem st.1 i hi)) h2
              (by rw [hmt])
          · rw [List.set_eq_of_length_le (le_of_not_lt hi)] at hcb
            exact h1 _ hcb
      · intro t ht
        exact h2 t (matchWithTitle_pool_sub _ _ _ m.1 m.2 (by rw [hmt]) t ht)

lemma expandChartBboxes_chart_valid (d out : AnnotDict)
    (h : expandChartBboxes d = some out) :
    ∀ b ∈ out.chart, ValidPos (detBox b) := by
  rw [expandChartBboxes] at h
  split at h
  · next hc =>
    rw [Option.some.injEq] at h
    subst h
    intro b hb
    rw [hc] at hb
    simp at hb
  · next hc =>
    cases hw : chartWbf d with
    | none => rw [hw] at h; simp at h
    | some fused =>
      obtain ⟨bs, ss, ls⟩ := fused
      have hbsv : ∀ bx ∈ bs, ValidPos bx := by
        rw [chartWbf] at hw
        exact wbf_biggest_valid _ _ _ _ _ _ _ _ _ _ hw
      rw [hw] at h
      simp only [Option.bind_eq_bind, Option.some_bind, Option.pure_def,
        Option.some.injEq] at h
      subst h
      intro b hb
      obtain ⟨p, hp, hbp⟩ := List.mem_map.mp hb
      rw [← hbp]
      have hp1 := (List.of_mem_zip (List.zip_eq_zipWith .. ▸ hp)).1
      obtain ⟨i, hi, hpe⟩ := List.mem_map.mp hp1
      have hcbv : ∀ cb ∈ ((bs.zip (ss.zip ls)).filter
          (fun r => decide (r.2.2 = 1))).map (fun r => r.1), ValidPos cb := by
        intro cb hcb
        obtain ⟨r0, hr0, hr0e⟩ := List.mem_map.mp hcb
        rw [← hr0e]
        exact hbsv r0.1 (List.of_mem_zip (List.zip_eq_zipWith .. ▸
          (List.mem_filter.mp hr0).1)).1
      have htbv : ∀ tb ∈ ((bs.zip (ss.zip ls)).filter
          (fun r => decide (r.2.2 = 2))).map (fun r => r.1), ValidPos tb := by
        intro tb htb
        obtain ⟨r0, hr0, hr0e⟩ := List.mem_map.mp htb
        rw [← hr0e]
        exact hbsv r0.1 (List.of_mem_zip (List.zip_eq_zipWith .. ▸
          (List.mem_filter.mp hr0).1)).1
      have hloop := chartLoop_valid
        (List.range (((bs.zip (ss.zip ls)).filter
          (fun r => decide (r.2.2 = 1))).map (fun r => r.1)).length)
        ((((bs.zip (ss.zip ls)).filter (fun r => decide (r.2.2 = 1))).map (fun r => r.1)),
         (((bs.zip (ss.zip ls)).filter (fun r => decide (r.2.2 = 2))).map (fun r => r.1)),
         [], []) hcbv htbv
      have hiv : ValidPos ((List.foldl chartMatchStep
          ((((bs.zip (ss.zip ls)).filter (fun r => decide (r.2.2 = 1))).map (fun r => r.1)),
           (((bs.zip (ss.zip ls)).filter (fun r => decide (r.2.2 = 2))).map (fun r => r.1)),
           [], [])
          (List.range (((bs.zip (ss.zip ls)).filter
            (fun r => decide (r.2.2 = 1))).map (fun r => r.1)).length)).1.getD i default) := by
        refine hloop.1 _ (getD_mem _ i ?_)
        exact List.mem_range.mp hi
      rw [← hpe]
      split
      · exact expandBox_valid _ _ (by norm_num) (by norm_num) _ hiv
      · exact expandBox_valid _ _ (by norm_num) (by norm_num) _ hiv

/-- C3 counterexample: the pipeline passes `table` (and `title`) entries
through without any box validation, so a zero-area table box in the input
annotation set reaches the final output unchanged. -/
theorem c3_counterexample :
    processInferenceResultsHttp [⟨[⟨1/2, 1/2, 1/2, 1/2, 9/10⟩], [], []⟩] (12/25) =
      some [⟨[⟨1/2, 1/2, 1/2, 1/2, 9/10⟩], [], []⟩] ∧
    ((1 : ℚ)/2 - 1/2) * ((1 : ℚ)/2 - 1/2) = 0 := by
  constructor
  · norm_num [processInferenceResultsHttp, expandTableBboxes, expandTableRow, roundDet,
      round4, roundHalfEven, Int.floor_eq_iff, expandChartBboxes, omap, finalFilter]
  · norm_num

/-- C3 (amended): every `chart` box in the final output of the pipeline
satisfies `0 ≤ x1 < x2 ≤ 1` and `0 ≤ y1 < y2 ≤ 1` (hence has positive
area); `table` and `title` boxes are passed through without validation, so
degenerate input boxes of those classes can appear in the output. -/
theorem c3_chart_validity (input : List AnnotDict) (ft : ℚ) (outs : List AnnotDict)
    (o : AnnotDict) (b : Det)
    (h : processInferenceResultsHttp input ft = some outs)
    (ho : o ∈ outs) (hb : b ∈ o.chart) :
    0 ≤ b.x1 ∧ b.x1 < b.x2 ∧ b.x2 ≤ 1 ∧ 0 ≤ b.y1 ∧ b.y1 < b.y2 ∧ b.y2 ≤ 1 := by
  rw [processInferenceResultsHttp] at h
  cases hstep2 : omap expandChartBboxes (input.map expandTableBboxes) with
  | none => rw [hstep2] at h; simp at h
  | some step2 =>
    rw [hstep2] at h
    simp only [Option.bind_eq_bind, Option.some_bind, Option.pure_def,
      Option.some.injEq] at h
    subst h
    obtain ⟨d2, hd2, ho2⟩ := List.mem_map.mp ho
    obtain ⟨d1, _, hexp⟩ := omap_mem expandChartBboxes _ step2 hstep2 d2 hd2
    have hb2 : b ∈ d2.chart := by
      rw [← ho2] at hb
      exact (List.mem_filter.mp hb).1
    exact expandChartBboxes_chart_valid d1 d2 hexp b hb2

/-- Witness for `c3_chart_validity`. -/
theorem c3_witness :
    0 ≤ ((9 : ℚ)/50) ∧ ((9 : ℚ)/50) < 31/50 ∧ ((31 : ℚ)/50) ≤ 1 ∧
    0 ≤ ((7 : ℚ)/40) ∧ ((7 : ℚ)/40) < 17/40 ∧ ((17 : ℚ)/40) ≤ 1 := by
  have hrun : processInferenceResultsHttp [d10] (12/25) =
      some [⟨[], [⟨9/50, 7/40, 31/50, 17/40, 9/10⟩], []⟩] := by
    have hd10 : expandTableBboxes d10 = d10 := by
      rw [expandTableBboxes, if_pos (show d10.table = [] from rfl)]
    have he : expandChartBboxes d10 = some out10 := by
      rw [expandChartBboxes, if_neg (by simp [d10])]
      have hw : chartWbf d10 = some ([⟨1/5, 1/5, 3/5, 2/5⟩], [9/10], [1]) := by
        norm_num [chartWbf, chartFusionItems, detBox, d10,
          weightedBoxesFusion, prefilterBoxes, prefilterOne, boxDataChecks, clamp01,
          bucketize, addToBuckets, sortDesc, insertDesc, buildClusters, clusterStep,
          findMatchingBoxFast, argmaxIdx, qmax, bbIou, recBox,
          listSetNat, sortedInsertNat, mergeCluster, getBiggestBox, mergeLabels, qmean,
          omap, intTrunc,
          List.enum, List.enumFrom, List.zip, List.zipWith, List.filterMap_cons,
          List.range_succ, List.findIdx_cons, List.findIdx_nil, List.findIdx?_cons,
          List.findIdx?_nil,
          show (("max" : String) = "avg") = False from by simp,
          show (("max" : String) = "max") = True from by simp,
          show (("biggest" : String) = "weighted") = False from by simp,
          show (("biggest" : String) = "biggest") = True from by simp]
      simp only [hw, Option.bind_eq_bind, Option.some_bind, Option.pure_def,
        Option.some.injEq]
      norm_num [List.zip, List.zipWith, chartMatchStep, matchWithTitle, proxScore,
        List.range_succ, expandBox, clamp01, out10, d10]
    rw [processInferenceResultsHttp]
    simp only [List.map_cons, List.map_nil, hd10, omap, he, Option.bind_eq_bind,
      Option.some_bind, Option.pure_def, Option.some.injEq]
    norm_num [finalFilter, out10]
  have hmem : (⟨9/50, 7/40, 31/50, 17/40, 9/10⟩ : Det) ∈
      (⟨[], [⟨9/50, 7/40, 31/50, 17/40, 9/10⟩], []⟩ : AnnotDict).chart := by simp
  exact c3_chart_validity [d10] (12/25) _ _ _ hrun (by simp) hmem
